import Mathlib

/-!
Verification of the birthday-bot message-understanding pipeline.

Shallow embedding of the JavaScript sources of the repository:
  - src/src/utils/month.utils.js   (month normalisation)
  - src/src/parsers/date.parser.js (name/date extraction, delete-input cleanup)
  - src/src/utils/fuzzyMatch.js    (fuzzy name matching)
  - src/db.js                      (the birthdays table and its SQL operations)
  - src/llm.js                     (the LLM classifier adapter)
  - src/src/services/*.js          (save/delete/update services)
  - src/src/parsers/multiline.parser.js
  - src/src/controllers (part_000) (the resolution engine / routing)

JavaScript strings are modelled as Lean Strings (operated on as List Char
where the sources use regular expressions); JS regexes are implemented as
explicit backtracking matchers with the leftmost-match, greedy/lazy and
word-boundary semantics of the originals.  Asynchronous external calls
(the LLM service, the SQL pool) become explicit inputs: the database is a
list of rows, the classifier response an `Except` value.
-/

namespace BirthdayBot

/-! ## JavaScript string primitives -/

/-- JS word character for the regex class `\w` and for `\b` boundaries:
ASCII letters, digits and underscore. -/
def isWordChar (c : Char) : Bool := c.isAlphanum || c = '_'

/-- JS `\s` (modelled on the ASCII whitespace Lean knows; the sources only
ever meet spaces, tabs and newlines). -/
def jsWs (c : Char) : Bool := c.isWhitespace

/-- Value of a decimal digit character. -/
def digitVal (c : Char) : Nat := c.toNat - '0'.toNat

/-- `parseInt` on a list of decimal digit characters. -/
def digitsToNat (l : List Char) : Nat := l.foldl (fun acc c => 10 * acc + digitVal c) 0

/-- Case-insensitive prefix test: `pat` (already lowercase) is a prefix of
`l` once `l` is lowercased, as JS literal matching under the `i` flag. -/
def prefixCI : List Char → List Char → Bool
  | [], _ => true
  | _ :: _, [] => false
  | p :: ps, c :: cs => p == c.toLower && prefixCI ps cs

/-- A `\b` word boundary directly after a word character: the rest of the
input is empty or starts with a non-word character. -/
def boundaryAfter : List Char → Bool
  | [] => true
  | c :: _ => !isWordChar c

/-- Split a character list at every occurrence of `sep` (JS `String.split`,
keeping empty segments). -/
def splitOnChar (sep : Char) : List Char → List (List Char)
  | [] => [[]]
  | c :: rest =>
    let r := splitOnChar sep rest
    if c == sep then [] :: r
    else match r with
      | [] => [[c]]
      | seg :: segs => (c :: seg) :: segs

/-- Replace every maximal run of characters satisfying `p` by one space
(used for the JS global replaces `/[,]+/g` and `/\s+/g` with `" "`). -/
def squashRuns (p : Char → Bool) : Bool → List Char → List Char
  | _, [] => []
  | inRun, c :: rest =>
    if p c then
      if inRun then squashRuns p true rest else ' ' :: squashRuns p true rest
    else c :: squashRuns p false rest

/-- `pat` occurs as a contiguous run inside `hay` (JS `String.includes`,
SQL `LIKE` with the needle between two wildcards). -/
def containsSeq (pat : List Char) : List Char → Bool
  | [] => pat.isPrefixOf []
  | c :: rest => pat.isPrefixOf (c :: rest) || containsSeq pat rest

/-- JS `string.includes(sub)`. -/
def jsIncludes (s sub : String) : Bool := containsSeq sub.toList s.toList

/-- JS `String.toLowerCase` (ASCII; the built-in `String.toLower` is not
kernel-computable, so the map is spelled out on the character list). -/
def jsToLower (s : String) : String := String.mk (s.toList.map Char.toLower)

/-- JS `String.trim` (strip whitespace from both ends). -/
def jsTrim (s : String) : String :=
  String.mk (((s.toList.dropWhile jsWs).reverse.dropWhile jsWs).reverse)

/-- JS `String.startsWith`. -/
def jsStartsWith (s pre : String) : Bool := pre.toList.isPrefixOf s.toList

/-! ## month.utils.js -/

/-- Source table `MONTH_ORDER` (full month names, lowercase, to 1..12). -/
def MONTH_ORDER : List (String × Nat) :=
  [("january", 1), ("february", 2), ("march", 3), ("april", 4), ("may", 5),
   ("june", 6), ("july", 7), ("august", 8), ("september", 9), ("october", 10),
   ("november", 11), ("december", 12)]

/-- Source table `MONTH_CANONICAL` (spelling, any of short/full, to the
canonical lowercase full name), in the insertion order of the object. -/
def MONTH_CANONICAL : List (String × String) :=
  [("jan", "january"), ("january", "january"), ("feb", "february"),
   ("february", "february"), ("mar", "march"), ("march", "march"),
   ("apr", "april"), ("april", "april"), ("may", "may"), ("jun", "june"),
   ("june", "june"), ("jul", "july"), ("july", "july"), ("aug", "august"),
   ("august", "august"), ("sep", "september"), ("sept", "september"),
   ("september", "september"), ("oct", "october"), ("october", "october"),
   ("nov", "november"), ("november", "november"), ("dec", "december"),
   ("december", "december")]

/-- Source table `CANONICAL_TO_SHORT` (canonical full name to display short
form such as "Jan"). -/
def CANONICAL_TO_SHORT : List (String × String) :=
  [("january", "Jan"), ("february", "Feb"), ("march", "Mar"),
   ("april", "Apr"), ("may", "May"), ("june", "Jun"), ("july", "Jul"),
   ("august", "Aug"), ("september", "Sep"), ("october", "Oct"),
   ("november", "Nov"), ("december", "Dec")]

/-- JS object property lookup on a string-keyed table. -/
def lookupStr : List (String × String) → String → Option String
  | [], _ => none
  | (k, v) :: rest, key => if key == k then some v else lookupStr rest key

/-- Body of `normalizeMonthToShort` once the token has been stringified,
trimmed and lowercased into `raw` (source lines 78-96 of month.utils.js). -/
def normShortRaw (raw : String) : Option String :=
  if raw == "" then none
  else if raw.toList.length ≤ 2 && raw.toList.all Char.isDigit then
    -- numeric month, regex `^\d{1,2}$` then `parseInt`
    match MONTH_ORDER.find? (fun kv => kv.2 == digitsToNat raw.toList) with
    | some kv => lookupStr CANONICAL_TO_SHORT kv.1
    | none => none
  else
    match lookupStr MONTH_CANONICAL raw with
    | none => none
    | some canonical => lookupStr CANONICAL_TO_SHORT canonical

/-- `normalizeMonthToShort(token)`: `none` models both a `null` argument and
a `null` result. -/
def normalizeMonthToShort : Option String → Option String
  | none => none
  | some t => normShortRaw (jsToLower (jsTrim t))

/-! ## Spec-side month vocabulary (used only to state the claims) -/

/-- The twelve canonical short forms, in calendar order. -/
def monthShortNames : List String :=
  ["Jan", "Feb", "Mar", "Apr", "May", "Jun",
   "Jul", "Aug", "Sep", "Oct", "Nov", "Dec"]

/-- The month word spellings the spec admits (abbreviation or full name,
lowercase), each with the short form it denotes. -/
def monthWordForms : List (String × String) :=
  [("jan", "Jan"), ("january", "Jan"), ("feb", "Feb"), ("february", "Feb"),
   ("mar", "Mar"), ("march", "Mar"), ("apr", "Apr"), ("april", "Apr"),
   ("may", "May"), ("jun", "Jun"), ("june", "Jun"), ("jul", "Jul"),
   ("july", "Jul"), ("aug", "Aug"), ("august", "Aug"), ("sep", "Sep"),
   ("sept", "Sep"), ("september", "Sep"), ("oct", "Oct"),
   ("october", "Oct"), ("nov", "Nov"), ("november", "Nov"),
   ("dec", "Dec"), ("december", "Dec")]

/-- A trimmed lowercased token the normalizer should accept: a 1-2 digit
number string with value 1..12, or one of the admitted month words. -/
def isValidMonthToken (raw : String) : Bool :=
  (!raw.toList.isEmpty && raw.toList.length ≤ 2 && raw.toList.all Char.isDigit
     && 1 ≤ digitsToNat raw.toList && digitsToNat raw.toList ≤ 12)
  || monthWordForms.any (fun p => p.1 == raw)

/-! ## Lookup-table lemmas -/

theorem lookupStr_mem {tbl : List (String × String)} {key v : String}
    (h : lookupStr tbl key = some v) : (key, v) ∈ tbl := by
  induction tbl with
  | nil => exact absurd h (by simp [lookupStr])
  | cons p rest ih =>
    obtain ⟨k, w⟩ := p
    rw [lookupStr] at h
    split at h
    · rename_i hk
      obtain rfl : w = v := by injection h
      obtain rfl : key = k := eq_of_beq hk
      exact List.mem_cons_self _ _
    · exact List.mem_cons_of_mem _ (ih h)

theorem lookupStr_none {tbl : List (String × String)} {key : String}
    (h : lookupStr tbl key = none) : ∀ p ∈ tbl, ¬(p.1 == key) := by
  induction tbl with
  | nil => intro p hp; exact absurd hp (by simp)
  | cons q rest ih =>
    obtain ⟨k, w⟩ := q
    rw [lookupStr] at h
    split at h
    · exact absurd h (by simp)
    · rename_i hk
      intro p hp
      rcases List.mem_cons.mp hp with h1 | h2
      · subst h1
        intro hcon
        have hkk : k = key := eq_of_beq (by simpa using hcon)
        exact hk (by rw [hkk]; exact beq_self_eq_true key)
      · exact ih h p h2

/-- Every value of `CANONICAL_TO_SHORT` is one of the twelve short forms. -/
theorem canonical_to_short_values :
    ∀ p ∈ CANONICAL_TO_SHORT, p.2 ∈ monthShortNames := by decide

/-- A successful `normShortRaw` always yields a canonical short form. -/
theorem normShortRaw_mem {raw s : String} (h : normShortRaw raw = some s) :
    s ∈ monthShortNames := by
  unfold normShortRaw at h
  split at h
  · exact absurd h (by simp)
  · split at h
    · split at h
      · exact canonical_to_short_values _ (lookupStr_mem h)
      · exact absurd h (by simp)
    · split at h
      · exact absurd h (by simp)
      · exact canonical_to_short_values _ (lookupStr_mem h)

/-- A successful `normalizeMonthToShort` always yields a canonical short
form. -/
theorem normalizeMonthToShort_mem {t : Option String} {s : String}
    (h : normalizeMonthToShort t = some s) : s ∈ monthShortNames := by
  cases t with
  | none => simp [normalizeMonthToShort] at h
  | some t => exact normShortRaw_mem h

/-- A string that is not `""` under `==` has a nonempty character list. -/
theorem toList_ne_nil {raw : String} (h : ¬(raw == "") = true) :
    raw.toList ≠ [] := by
  intro hnil
  apply h
  obtain ⟨data⟩ := raw
  have hd : data = [] := hnil
  subst hd
  decide

/-- Every order value of `MONTH_ORDER` lies in 1..12. -/
theorem monthOrder_vals : ∀ p ∈ MONTH_ORDER, 1 ≤ p.2 ∧ p.2 ≤ 12 := by decide

/-- Every key of `MONTH_CANONICAL` is one of the admitted month words. -/
theorem canonical_keys_in_forms :
    ∀ p ∈ MONTH_CANONICAL, monthWordForms.any (fun q => q.1 == p.1) = true := by
  decide

/-- The numeric search of the normalizer fails outside 1..12. -/
theorem find_monthOrder_none {num : Nat} (h : ¬(1 ≤ num ∧ num ≤ 12)) :
    MONTH_ORDER.find? (fun kv => kv.2 == num) = none := by
  rw [List.find?_eq_none]
  intro x hx hbeq
  have hv := monthOrder_vals x hx
  have : x.2 = num := by simpa using hbeq
  omega

/-- A string whose character list is nonempty is not `""` under `==`. -/
theorem beq_empty_false {raw : String} (h : raw.toList ≠ []) :
    (raw == "") = false := by
  rw [beq_eq_false_iff_ne]
  intro he
  apply h
  rw [he]
  rfl

/-- C7 — the month normalizer is total (a Lean function, hence no throw and
no side effect) and: (a) it returns nothing or one of the twelve canonical
3-letter short forms; (b) a token whose trimmed lowercase form is a 1-2
digit number string with value n in 1..12 yields month n's short form;
(c) a token whose trimmed lowercase form is a month abbreviation or full
month name (any letter case collapses under toLower) yields that month's
short form; (d) every other token fails with `none`; (e) a null token
fails with `none`. -/
theorem c7_month_normalizer_contract :
    (∀ t : String, normalizeMonthToShort (some t) = none ∨
       ∃ s, normalizeMonthToShort (some t) = some s ∧ s ∈ monthShortNames)
    ∧ (∀ (t : String) (n : Nat), 1 ≤ n → n ≤ 12 →
        (jsToLower (jsTrim t)).toList.all Char.isDigit = true →
        (jsToLower (jsTrim t)).toList.length ≤ 2 →
        (jsToLower (jsTrim t)).toList ≠ [] →
        digitsToNat (jsToLower (jsTrim t)).toList = n →
        normalizeMonthToShort (some t) = monthShortNames.get? (n - 1))
    ∧ (∀ t w s : String, (w, s) ∈ monthWordForms → jsToLower (jsTrim t) = w →
        normalizeMonthToShort (some t) = some s)
    ∧ (∀ t : String, isValidMonthToken (jsToLower (jsTrim t)) = false →
        normalizeMonthToShort (some t) = none)
    ∧ normalizeMonthToShort none = none := by
  refine ⟨?_, ?_, ?_, ?_, rfl⟩
  · intro t
    rcases h : normalizeMonthToShort (some t) with _ | s
    · exact Or.inl rfl
    · exact Or.inr ⟨s, rfl, normalizeMonthToShort_mem h⟩
  · intro t n h1 h2 hall hlen hne hval
    show normShortRaw (jsToLower (jsTrim t)) = _
    generalize jsToLower (jsTrim t) = raw at hall hlen hne hval
    rw [normShortRaw, beq_empty_false hne, if_neg (by simp)]
    rw [if_pos (show (decide (raw.toList.length ≤ 2) && raw.toList.all Char.isDigit) = true by
      rw [Bool.and_eq_true]; exact ⟨decide_eq_true hlen, hall⟩)]
    rw [hval]
    interval_cases n <;> decide
  · intro t w s hmem ht
    show normShortRaw (jsToLower (jsTrim t)) = _
    rw [ht]
    fin_cases hmem <;> decide
  · intro t hv
    show normShortRaw (jsToLower (jsTrim t)) = none
    generalize jsToLower (jsTrim t) = raw at hv
    rw [normShortRaw]
    split
    · rfl
    · rename_i hraw
      split
      · rename_i hdig
        rw [Bool.and_eq_true, decide_eq_true_eq] at hdig
        have hne : raw.toList ≠ [] := toList_ne_nil hraw
        rcases hf : MONTH_ORDER.find? (fun kv => kv.2 == digitsToNat raw.toList)
            with _ | kv
        · rw [hf]
        · exfalso
          have hkv2 : kv.2 = digitsToNat raw.toList := by
            have := List.find?_some hf
            simpa using this
          have hkmem := List.mem_of_find?_eq_some hf
          have hb := monthOrder_vals kv hkmem
          have hb1 : 1 ≤ digitsToNat raw.toList := by omega
          have hb2 : digitsToNat raw.toList ≤ 12 := by omega
          have hemp : raw.toList.isEmpty = false := by simpa using hne
          simp [isValidMonthToken, hemp, hdig.1, hdig.2, hb1, hb2] at hv
          have hall : ∀ x ∈ raw.data, x.isDigit = true := by
            intro x hx
            simpa using List.all_eq_true.mp hdig.2 x hx
          have hbridge : digitsToNat raw.data = digitsToNat raw.toList := rfl
          have := hv.1 hne hdig.1 hall (hbridge ▸ hb1)
          omega
      · rcases hc : lookupStr MONTH_CANONICAL raw with _ | canonical
        · rfl
        · exfalso
          have hany : (monthWordForms.any fun q => q.1 == raw) = true := by
            simpa using canonical_keys_in_forms _ (lookupStr_mem hc)
          have htrue : isValidMonthToken raw = true := by
            unfold isValidMonthToken
            rw [Bool.or_eq_true]
            right
            exact hany
          simp [htrue] at hv

/-- C7 at concrete inputs: "FEBRUARY" normalizes to "Feb" by the word
clause, "12" to "Dec" by the numeric clause. -/
theorem c7_witness :
    normalizeMonthToShort (some "FEBRUARY") = some "Feb"
    ∧ normalizeMonthToShort (some "12") = monthShortNames.get? 11 := by
  constructor
  · exact c7_month_normalizer_contract.2.2.1 "FEBRUARY" "february" "Feb"
      (by decide) (by decide)
  · exact c7_month_normalizer_contract.2.1 "12" 12 (by decide) (by decide)
      (by decide) (by decide) (by decide) (by decide)

/-! ## Regex building blocks

The sources use a handful of regular expressions.  Each is implemented as
an explicit matcher with the originals' leftmost-match rule, greedy or
lazy quantifiers via explicit backtracking (continuation passing), and
`\b` word boundaries via the previous-character flag of the scanners. -/

/-- Length of the maximal prefix of characters satisfying `p`. -/
def runLen (p : Char → Bool) (l : List Char) : Nat := (l.takeWhile p).length

/-- First success of `f` over a list of candidate lengths. -/
def firstSome (f : Nat → Option α) : List Nat → Option α
  | [] => none
  | n :: rest => f n <|> firstSome f rest

/-- Greedy `p+` with backtracking: the continuation gets the consumed run
and the rest, longest run first. -/
def runPlusDescK (p : Char → Bool) (l : List Char)
    (k : List Char → List Char → Option α) : Option α :=
  firstSome (fun n => k (l.take n) (l.drop n)) ((List.range' 1 (runLen p l)).reverse)

/-- Lazy `p+?` with backtracking: shortest run first. -/
def runPlusAscK (p : Char → Bool) (l : List Char)
    (k : List Char → List Char → Option α) : Option α :=
  firstSome (fun n => k (l.take n) (l.drop n)) (List.range' 1 (runLen p l))

/-- Greedy `p*` with backtracking, longest run (possibly empty) first. -/
def runStarDescK (p : Char → Bool) (l : List Char)
    (k : List Char → Option α) : Option α :=
  firstSome (fun n => k (l.drop n)) ((List.range (runLen p l + 1)).reverse)

/-- Greedy `\d{1,2}`: two digits if possible, backtracking to one; the
continuation gets the parsed value, the matched characters and the rest. -/
def digits12K (l : List Char) (k : Nat → List Char → List Char → Option α) :
    Option α :=
  match l with
  | c1 :: rest =>
    if c1.isDigit then
      (match rest with
       | c2 :: rest2 =>
         if c2.isDigit then k (10 * digitVal c1 + digitVal c2) [c1, c2] rest2
         else none
       | [] => none)
      <|> k (digitVal c1) [c1] rest
    else none
  | [] => none

/-- Ordered alternation of literal forms (already lowercase), matched
case-insensitively; on a failing continuation the next form is tried. -/
def tryFormsK (forms : List String) (l : List Char)
    (k : String → List Char → Option α) : Option α :=
  match forms with
  | [] => none
  | f :: rest =>
    (if prefixCI f.toList l then k f (l.drop f.toList.length) else none)
    <|> tryFormsK rest l k

/-- The month-word alternation of the sources,
`jan(?:uary)?|feb(?:ruary)?|...|dec(?:ember)?`, one inner list per
alternative with its greedy expansion order. -/
def monthFormsList : List (List String) :=
  [["january", "jan"], ["february", "feb"], ["march", "mar"],
   ["april", "apr"], ["may"], ["june", "jun"], ["july", "jul"],
   ["august", "aug"], ["september", "sept", "sep"], ["october", "oct"],
   ["november", "nov"], ["december", "dec"]]

/-- Try the month alternatives in regex order. -/
def tryMonthsK : List (List String) → List Char →
    (String → List Char → Option α) → Option α
  | [], _, _ => none
  | fs :: rest, l, k => tryFormsK fs l k <|> tryMonthsK rest l k

/-- Leftmost scan for a pattern that must start at a `\b` boundary and
begins with a word character: try at each position whose previous
character is not a word character. -/
def scanB (tryAt : List Char → Option α) : Bool → List Char → Option α
  | _, [] => none
  | prevWord, c :: rest =>
    (if !prevWord then tryAt (c :: rest) else none)
    <|> scanB tryAt (isWordChar c) rest

/-- Leftmost scan with no boundary requirement. -/
def scanPlain (tryAt : List Char → Option α) : List Char → Option α
  | [] => tryAt []
  | c :: rest => tryAt (c :: rest) <|> scanPlain tryAt rest

/-- `String.replace(new RegExp(matchedText, i-flag), " ")`: the first
case-insensitive occurrence of the matched literal becomes one space. -/
def replaceFirstCI : List Char → List Char → List Char
  | [], _ => []
  | c :: rest, pat =>
    if prefixCI pat (c :: rest) then ' ' :: (c :: rest).drop pat.length
    else c :: replaceFirstCI rest pat

/-- `n.toString()` for naturals (fuelled, kernel-computable). -/
def natToStringAux : Nat → Nat → List Char
  | 0, _ => []
  | fuel + 1, n =>
    if n < 10 then [Char.ofNat (48 + n)]
    else natToStringAux fuel (n / 10) ++ [Char.ofNat (48 + n % 10)]

/-- JS number-to-string for the naturals the sources meet. -/
def natToString (n : Nat) : String := String.mk (natToStringAux (n + 1) n)

/-! ## date.parser.js — parseNameAndDate -/

/-- At-position matcher for step 1 of the extractor: `\b(\d{1,2})`, a
slash or dash, `(\d{1,2})\b`; yields matched text, day value, month
value. -/
def matchDMAt (l : List Char) : Option (List Char × Nat × Nat) :=
  digits12K l (fun d dtxt rest =>
    match rest with
    | sep :: rest2 =>
      if sep == '/' || sep == '-' then
        digits12K rest2 (fun m mtxt rest3 =>
          if boundaryAfter rest3 then some (dtxt ++ sep :: mtxt, d, m) else none)
      else none
    | [] => none)

/-- First match of the numeric `D/M` or `D-M` pattern. -/
def findDM (lower : List Char) : Option (List Char × Nat × Nat) :=
  scanB matchDMAt false lower

/-- At-position matcher for the month-word pattern `\b(jan(?:uary)?|...)\b`
(step 2): the matched text. -/
def matchMonthWordAt (l : List Char) : Option (List Char) :=
  tryMonthsK monthFormsList l (fun f rest =>
    if boundaryAfter rest then some f.toList else none)

/-- First match of a month word. -/
def findMonthWord (lower : List Char) : Option (List Char) :=
  scanB matchMonthWordAt false lower

/-- At-position matcher for `\b(\d{1,2})(st|nd|rd|th)?\b` (step 3):
matched text (suffix included) and day value. -/
def matchDayAt (l : List Char) : Option (List Char × Nat) :=
  digits12K l (fun d dtxt rest =>
    (tryFormsK ["st", "nd", "rd", "th"] rest (fun suf rest2 =>
       if boundaryAfter rest2 then some (dtxt ++ suf.toList, d) else none))
    <|> (if boundaryAfter rest then some (dtxt, d) else none))

/-- First match of a standalone day token. -/
def findDay (lower : List Char) : Option (List Char × Nat) :=
  scanB matchDayAt false lower

/-- The extractor's working state: day and month once resolved, and the
working text the matched tokens are removed from. -/
structure PState where
  day : Option Nat
  month : Option String
  working : List Char
  deriving DecidableEq, Repr

/-- Step 1 of `parseNameAndDate`: numeric `D/M` or `D-M` (source lines
54-66); `none` models the early `return null` when the bounded match's
month fails to normalize. -/
def afterNumeric (lower original : List Char) : Option PState :=
  match findDM lower with
  | none => some ⟨none, none, original⟩
  | some (txt, d, m) =>
    if 1 ≤ d ∧ d ≤ 31 ∧ 1 ≤ m ∧ m ≤ 12 then
      match normalizeMonthToShort (some (natToString m)) with
      | none => none
      | some ms => some ⟨some d, some ms, replaceFirstCI original txt⟩
    else some ⟨none, none, original⟩

/-- Step 2: month word, only when the month is still unresolved (source
lines 68-79). -/
def afterMonthWord (lower : List Char) (st : PState) : Option PState :=
  match st.month with
  | some _ => some st
  | none =>
    match findMonthWord lower with
    | none => some st
    | some txt =>
      match normalizeMonthToShort (some (String.mk txt)) with
      | none => none
      | some ms => some ⟨st.day, some ms, replaceFirstCI st.working txt⟩

/-- Step 3: standalone 1-2 digit day with optional ordinal suffix, only
when the day is still unresolved (source lines 81-93). -/
def afterDayStep (lower : List Char) (st : PState) : PState :=
  match st.day with
  | some _ => st
  | none =>
    match findDay lower with
    | none => st
    | some (txt, d) =>
      if 1 ≤ d ∧ d ≤ 31 then ⟨some d, st.month, replaceFirstCI st.working txt⟩
      else st

/-- A complete extraction result. -/
structure ParsedNameDate where
  name : String
  day : Nat
  month : String
  deriving DecidableEq, Repr

/-- The residual name: the working text with comma runs, then whitespace
runs, squashed to single spaces, then trimmed (source line 100). -/
def residualName (working : List Char) : String :=
  jsTrim (String.mk (squashRuns jsWs false
    (squashRuns (fun c => c == ',') false working)))

/-- Final guard of the extractor (source lines 95-103): both day and month
resolved and a nonempty residual name, or no result at all. -/
def finishParse (st3 : PState) : Option ParsedNameDate :=
  match st3.day, st3.month with
  | some d, some ms =>
    if residualName st3.working == "" then none
    else some ⟨residualName st3.working, d, ms⟩
  | _, _ => none

/-- `parseNameAndDate(message)` (date.parser.js lines 44-104): the three
steps above on the lowercased message, then the residual text minus
commas/whitespace runs as the name; fails unless day, month and a
nonempty name are all resolved. -/
def parseNameAndDate (message : String) : Option ParsedNameDate :=
  if jsTrim message == "" then none
  else
    match afterNumeric (jsToLower message).toList message.toList with
    | none => none
    | some st1 =>
      match afterMonthWord (jsToLower message).toList st1 with
      | none => none
      | some st2 => finishParse (afterDayStep (jsToLower message).toList st2)

/-! ## C6 support lemmas -/

theorem afterNumeric_props {lower original : List Char} {st : PState}
    (h : afterNumeric lower original = some st) :
    (∀ d, st.day = some d → 1 ≤ d ∧ d ≤ 31) ∧
    (∀ ms, st.month = some ms → ms ∈ monthShortNames) := by
  unfold afterNumeric at h
  split at h
  · injection h with h
    subst h
    exact ⟨fun d hd => Option.noConfusion hd, fun ms hm => Option.noConfusion hm⟩
  · split at h
    · rename_i hb
      split at h
      · exact absurd h (by simp)
      · rename_i ms0 hnorm
        injection h with h
        subst h
        refine ⟨fun d2 hd2 => ?_, fun ms2 hm2 => ?_⟩
        · obtain rfl : _ = d2 := by injection hd2
          exact ⟨hb.1, hb.2.1⟩
        · obtain rfl : ms0 = ms2 := by injection hm2
          exact normalizeMonthToShort_mem hnorm
    · injection h with h
      subst h
      exact ⟨fun d hd => Option.noConfusion hd, fun ms hm => Option.noConfusion hm⟩

theorem afterMonthWord_props {lower : List Char} {st st2 : PState}
    (h : afterMonthWord lower st = some st2) :
    st2.day = st.day ∧
    (∀ ms, st2.month = some ms → st.month = some ms ∨ ms ∈ monthShortNames) := by
  unfold afterMonthWord at h
  split at h
  · injection h with h
    subst h
    exact ⟨rfl, fun ms hm => Or.inl hm⟩
  · split at h
    · injection h with h
      subst h
      exact ⟨rfl, fun ms hm => Or.inl hm⟩
    · split at h
      · exact absurd h (by simp)
      · rename_i ms0 hnorm
        injection h with h
        subst h
        refine ⟨rfl, fun ms2 hm2 => ?_⟩
        obtain rfl : ms0 = ms2 := by injection hm2
        exact Or.inr (normalizeMonthToShort_mem hnorm)

theorem afterDayStep_props (lower : List Char) (st : PState) :
    (afterDayStep lower st).month = st.month ∧
    (∀ d, (afterDayStep lower st).day = some d →
       st.day = some d ∨ (1 ≤ d ∧ d ≤ 31)) := by
  unfold afterDayStep
  split
  · exact ⟨rfl, fun d hd => Or.inl hd⟩
  · split
    · exact ⟨rfl, fun d hd => Or.inl hd⟩
    · split
      · rename_i hb
        refine ⟨rfl, fun d hd => Or.inr ?_⟩
        obtain rfl : _ = d := by injection hd
        exact hb
      · exact ⟨rfl, fun d hd => Or.inl hd⟩

theorem finishParse_props {st3 : PState} {r : ParsedNameDate}
    (h : finishParse st3 = some r) :
    st3.day = some r.day ∧ st3.month = some r.month ∧ r.name ≠ "" := by
  unfold finishParse at h
  split at h
  · rename_i d ms hd hm
    split at h
    · exact absurd h (by simp)
    · rename_i hne
      injection h with h
      subst h
      exact ⟨hd, hm, by simpa using hne⟩
  · exact absurd h (by simp)

/-- C6 — the extractor returns a complete triplet or nothing: whenever
`parseNameAndDate` succeeds, the day is within 1..31 (bounds-checked at
consumption, whether it came from the numeric pair or from the standalone
day token), the month is one of the twelve canonical short forms, and the
residual name left after stripping commas and extra whitespace is
nonempty; a partial result is never returned. -/
theorem c6_extractor_never_partial (message : String) (r : ParsedNameDate)
    (h : parseNameAndDate message = some r) :
    1 ≤ r.day ∧ r.day ≤ 31 ∧ r.month ∈ monthShortNames ∧ r.name ≠ "" := by
  unfold parseNameAndDate at h
  split at h
  · exact absurd h (by simp)
  · rcases h1 : afterNumeric (jsToLower message).toList message.toList
        with _ | st1
    · rw [h1] at h
      exact absurd h (by simp)
    · simp only [h1] at h
      rcases h2 : afterMonthWord (jsToLower message).toList st1 with _ | st2
      · simp only [h2] at h
        exact absurd h (by simp)
      · simp only [h2] at h
        obtain ⟨hday3, hmonth3, hname⟩ := finishParse_props h
        obtain ⟨hdm, hmon⟩ := afterDayStep_props (jsToLower message).toList st2
        obtain ⟨hmd, hmm⟩ := afterMonthWord_props h2
        obtain ⟨hnd, hnm⟩ := afterNumeric_props h1
        have hdbound : 1 ≤ r.day ∧ r.day ≤ 31 := by
          rcases hmon r.day hday3 with h2d | hb
          · exact hnd r.day (hmd ▸ h2d)
          · exact hb
        have hmmem : r.month ∈ monthShortNames := by
          have h2m : st2.month = some r.month := hdm ▸ hmonth3
          rcases hmm r.month h2m with h1m | hmem
          · exact hnm r.month h1m
          · exact hmem
        exact ⟨hdbound.1, hdbound.2, hmmem, hname⟩

/-- C6 at concrete inputs: the two extractor shapes of the spec's
idempotence example both yield the full triplet, on which the theorem's
guarantees are checked. -/
theorem c6_witness :
    parseNameAndDate "Papa 29 Aug" = some ⟨"Papa", 29, "Aug"⟩
    ∧ parseNameAndDate "29/08 Papa" = some ⟨"Papa", 29, "Aug"⟩
    ∧ (1 ≤ (29 : Nat) ∧ (29 : Nat) ≤ 31 ∧ "Aug" ∈ monthShortNames
        ∧ "Papa" ≠ "") := by
  refine ⟨by decide, by decide, ?_⟩
  exact c6_extractor_never_partial "Papa 29 Aug" ⟨"Papa", 29, "Aug"⟩ (by decide)

/-! ## date.parser.js — extractNamesFromDeleteInput -/

/-- Global regex replace driver (`String.replace` with the `g` flag and an
empty replacement): at each position (subject to a required `\b` start
boundary when `needsB`), try the matcher; a match of n ≥ 1 characters is
deleted and scanning continues after it, with the boundary context taken
from the original text as JS does. -/
def greplaceAux (needsB : Bool) (tryAt : List Char → Option Nat) :
    Nat → Bool → List Char → List Char
  | 0, _, l => l
  | _ + 1, _, [] => []
  | fuel + 1, prevWord, c :: rest =>
    match (if !needsB || !prevWord then tryAt (c :: rest) else none) with
    | some n =>
      if n == 0 then c :: greplaceAux needsB tryAt fuel (isWordChar c) rest
      else
        greplaceAux needsB tryAt fuel
          (isWordChar (((c :: rest).take n).getLastD c)) ((c :: rest).drop n)
    | none => c :: greplaceAux needsB tryAt fuel (isWordChar c) rest

/-- Run a global replace over a whole character list. -/
def greplace (needsB : Bool) (tryAt : List Char → Option Nat) (l : List Char) :
    List Char :=
  greplaceAux needsB tryAt (l.length + 1) false l

/-- Cleanup pattern 1 (source line 117): 1-2 digits, optional spaces, an
en-dash or hyphen, optional spaces; no boundaries. -/
def p1At (l : List Char) : Option Nat :=
  digits12K l (fun _ _ r1 =>
    runStarDescK jsWs r1 (fun r2 =>
      match r2 with
      | sep :: r3 =>
        if sep == '–' || sep == '-' then
          runStarDescK jsWs r3 (fun r4 => some (l.length - r4.length))
        else none
      | [] => none))

/-- Cleanup pattern 2 (source line 118): `\b`, 1-2 digits, optional
spaces, slash or dash, optional spaces, 1-2 digits, `\b`. -/
def p2At (l : List Char) : Option Nat :=
  digits12K l (fun _ _ r1 =>
    runStarDescK jsWs r1 (fun r2 =>
      match r2 with
      | sep :: r3 =>
        if sep == '/' || sep == '-' then
          runStarDescK jsWs r3 (fun r4 =>
            digits12K r4 (fun _ _ r5 =>
              if boundaryAfter r5 then some (l.length - r5.length) else none))
        else none
      | [] => none))

/-- Cleanup pattern 3 (source lines 121-122): `\b`, month word, spaces,
1-2 digits, `\b` (case-insensitive). -/
def p3At (l : List Char) : Option Nat :=
  tryMonthsK monthFormsList l (fun _ r1 =>
    runPlusDescK jsWs r1 (fun _ r2 =>
      digits12K r2 (fun _ _ r3 =>
        if boundaryAfter r3 then some (l.length - r3.length) else none)))

/-- Cleanup pattern 4 (source line 123): `\b`, 1-2 digits, spaces, month
word, `\b` (case-insensitive). -/
def p4At (l : List Char) : Option Nat :=
  digits12K l (fun _ _ r1 =>
    runPlusDescK jsWs r1 (fun _ r2 =>
      tryMonthsK monthFormsList r2 (fun _ r3 =>
        if boundaryAfter r3 then some (l.length - r3.length) else none)))

/-- Per-part cleanup pattern (source line 131): `\b`, 1-2 digits, `\b`. -/
def p5At (l : List Char) : Option Nat :=
  digits12K l (fun _ _ r1 =>
    if boundaryAfter r1 then some (l.length - r1.length) else none)

/-- `extractNamesFromDeleteInput(input)` (date.parser.js lines 111-136):
strip date fragments, split on commas, strip stray 1-2 digit numbers,
and return the cleaned nonempty name strings. -/
def extractNamesFromDeleteInput (input : String) : List String :=
  if jsTrim input == "" then []
  else
    ((((splitOnChar ','
          (greplace true p4At
            (greplace true p3At
              (greplace true p2At
                (greplace false p1At (jsTrim input).toList))))).map
        (fun p => jsTrim (String.mk p))).filter
      (fun p => 0 < p.length)).map
      (fun part =>
        jsTrim (String.mk (squashRuns jsWs false
          (jsTrim (String.mk (greplace true p5At part.toList))).toList)))).filter
      (fun p => 0 < p.length)

/-! ## db.js — the birthdays table -/

/-- One row of the `birthdays` table. -/
structure Birthday where
  phone : String
  name : String
  day : Nat
  month : String
  deriving DecidableEq, Repr

/-- The per-process table state (the `UNIQUE` constraint is a storage
concern; rows are listed in insertion order). -/
abbrev Db := List Birthday

/-- SQL `LOWER(a) = LOWER(b)`. -/
def lowerEq (a b : String) : Bool := jsToLower a == jsToLower b

/-- WHERE clause of `birthdayExists` (db.js lines 47-59): owner exact,
name and month case-insensitive, day exact. -/
def dupPred (phone name : String) (day : Nat) (month : String)
    (b : Birthday) : Bool :=
  b.phone == phone && lowerEq b.name name && b.day == day
    && lowerEq b.month month

/-- `birthdayExists` (db.js lines 47-59). -/
def birthdayExists (db : Db) (phone name : String) (day : Nat)
    (month : String) : Bool :=
  db.any (dupPred phone name day month)

/-- `saveBirthday` (db.js lines 38-44): `INSERT`, appending one row. -/
def saveBirthdayRow (db : Db) (phone name : String) (day : Nat)
    (month : String) : Db :=
  db ++ [⟨phone, name, day, month⟩]

/-- WHERE clause of the exact delete pass (db.js line 97), also of
`birthdayExistsByName` and `updateBirthday`. -/
def exactDelPred (phone name : String) (b : Birthday) : Bool :=
  b.phone == phone && lowerEq b.name name

/-- WHERE clause of the fuzzy delete pass (db.js line 111):
`LOWER(name) LIKE` the lowercased query between two percent wildcards,
modelled as case-insensitive substring containment (queries containing
SQL wildcard characters are outside the model). -/
def fuzzyDelPred (phone name : String) (b : Birthday) : Bool :=
  b.phone == phone
    && containsSeq (jsToLower name).toList (jsToLower b.name).toList

/-- `deleteBirthday` (db.js lines 92-123): the exact pass first; the fuzzy
pass only when the exact pass affected zero rows; `true` iff a pass
deleted at least one row. -/
def deleteBirthday (db : Db) (phone name : String) : Db × Bool :=
  if 0 < (db.filter (exactDelPred phone name)).length then
    (db.filter (fun b => !exactDelPred phone name b), true)
  else if 0 < (db.filter (fuzzyDelPred phone name)).length then
    (db.filter (fun b => !fuzzyDelPred phone name b), true)
  else (db, false)

/-- `birthdayExistsByName` (db.js lines 126-136). -/
def birthdayExistsByName (db : Db) (phone name : String) : Bool :=
  db.any (exactDelPred phone name)

/-- `updateBirthday` (db.js lines 139-148): `UPDATE` day and month on
every row of the owner whose name matches case-insensitively; the source
ignores the row count entirely. -/
def updateBirthdayRows (db : Db) (phone name : String) (day : Nat)
    (month : String) : Db :=
  db.map (fun b =>
    if exactDelPred phone name b then ⟨b.phone, b.name, day, month⟩ else b)

/-! ## Replies and service results (birthday.service) -/

/-- The structured (pre-rewrite) replies the services compose; each
constructor carries the data interpolated into the message template, so a
reply mentions exactly the names in its payload. -/
inductive Reply
  | duplicate (name month : String) (day : Nat)
  | saved (name month : String) (day : Nat)
  | removed (names : List String)
  | couldNotFind
  | updated (name month : String) (day : Nat)
  | birthdayIs (name month : String) (day : Nat)
  | matchList (rows : List Birthday)
  deriving DecidableEq, Repr

/-- Whether a reply's message text mentions the name `n` (its payload
contains `n`). -/
def replyMentions (r : Reply) (n : String) : Bool :=
  match r with
  | .duplicate nm _ _ => nm == n
  | .saved nm _ _ => nm == n
  | .removed names => names.contains n
  | .couldNotFind => false
  | .updated nm _ _ => nm == n
  | .birthdayIs nm _ _ => nm == n
  | .matchList ms => ms.any (fun b => b.name == n)

/-- The `{success, duplicate}` result object of the save service
(`duplicate` absent in the source means `false`). -/
structure SaveResult where
  success : Bool
  duplicate : Bool
  deriving DecidableEq, Repr

/-- `saveBirthdayForUser` (birthday.service lines 67-87): normalize the
month (failure is a silent error result), check the duplicate, then
write; returns the new table, the replies sent, and the result object.
(`markWelcomeSeen` touches the users table, outside this model.) -/
def saveBirthdayForUser (db : Db) (phone name : String) (day : Nat)
    (month : String) : Db × List Reply × SaveResult :=
  match normalizeMonthToShort (some month) with
  | none => (db, [], ⟨false, false⟩)
  | some m =>
    if birthdayExists db phone (jsTrim name) day m then
      (db, [.duplicate name m day], ⟨false, true⟩)
    else
      (saveBirthdayRow db phone (jsTrim name) day m, [.saved name m day],
        ⟨true, false⟩)

/-- `saveBirthdayFromMessage` (birthday.service lines 90-98). -/
def saveBirthdayFromMessage (db : Db) (phone message : String) :
    Db × List Reply × SaveResult :=
  match parseNameAndDate message with
  | none => (db, [], ⟨false, false⟩)
  | some p => saveBirthdayForUser db phone p.name p.day p.month

/-- The legacy whole-string save regex `^(.+?)\s+([A-Za-z]+)\s+(\d+)$`
(birthday.service line 102), with the lazy name group. -/
def matchLegacySave (l : List Char) : Option (String × String × String) :=
  runPlusAscK (fun c => c != '\n') l (fun nameC r1 =>
    runPlusDescK jsWs r1 (fun _ r2 =>
      runPlusDescK Char.isAlpha r2 (fun monthC r3 =>
        runPlusDescK jsWs r3 (fun _ r4 =>
          runPlusDescK Char.isDigit r4 (fun dayC r5 =>
            if r5.isEmpty then
              some (String.mk nameC, String.mk monthC, String.mk dayC)
            else none)))))

/-- `saveBirthdayFromLegacyPattern` (birthday.service lines 101-110). -/
def saveBirthdayFromLegacyPattern (db : Db) (phone message : String) :
    Db × List Reply × SaveResult :=
  match matchLegacySave message.toList with
  | none => (db, [], ⟨false, false⟩)
  | some (name, month, dayStr) =>
    saveBirthdayForUser db phone name (digitsToNat dayStr.toList) month

/-- The per-name loop of `deleteBirthdayForUser` (birthday.service lines
125-138): threads the table, collecting deleted and not-found names in
input order. -/
def delLoop (db : Db) (phone : String) :
    List String → Db × List String × List String
  | [] => (db, [], [])
  | n :: rest =>
    if (deleteBirthday db phone n).2 then
      if birthdayExistsByName (deleteBirthday db phone n).1 phone n then
        ((delLoop (deleteBirthday db phone n).1 phone rest).1,
         (delLoop (deleteBirthday db phone n).1 phone rest).2.1,
         n :: (delLoop (deleteBirthday db phone n).1 phone rest).2.2)
      else
        ((delLoop (deleteBirthday db phone n).1 phone rest).1,
         n :: (delLoop (deleteBirthday db phone n).1 phone rest).2.1,
         (delLoop (deleteBirthday db phone n).1 phone rest).2.2)
    else
      ((delLoop (deleteBirthday db phone n).1 phone rest).1,
       (delLoop (deleteBirthday db phone n).1 phone rest).2.1,
       n :: (delLoop (deleteBirthday db phone n).1 phone rest).2.2)

/-- `deleteBirthdayForUser` (birthday.service lines 113-152): split the
input into candidate names, delete each (exact then fuzzy), and reply
with the removed names, or a not-found message when nothing was removed;
the boolean is the `success` field of the returned object. -/
def deleteBirthdayForUser (db : Db) (phone inputName : String) :
    Db × List Reply × Bool :=
  if (extractNamesFromDeleteInput inputName).isEmpty then
    (db, [.couldNotFind], false)
  else
    if 0 < (delLoop db phone (extractNamesFromDeleteInput inputName)).2.1.length then
      ((delLoop db phone (extractNamesFromDeleteInput inputName)).1,
       [.removed (delLoop db phone (extractNamesFromDeleteInput inputName)).2.1],
       true)
    else
      ((delLoop db phone (extractNamesFromDeleteInput inputName)).1,
       [.couldNotFind], false)

/-- `updateBirthdayForUser` (birthday.service lines 155-165): an invalid
(or absent) month is a silent failure; otherwise the UPDATE runs and the
service replies with the update confirmation and reports success,
whatever the row count was. -/
def updateBirthdayForUser (db : Db) (phone name : String) (day : Nat)
    (month : Option String) : Db × List Reply × Bool :=
  match normalizeMonthToShort month with
  | none => (db, [], false)
  | some m =>
    (updateBirthdayRows db phone name day m, [.updated name m day], true)

/-! ## Claims on the storage and service layer -/

theorem any_iff_filter_pos {p : Birthday → Bool} {db : Db} :
    db.any p = true ↔ 0 < (db.filter p).length := by
  rw [List.any_eq_true]
  constructor
  · rintro ⟨x, hx, hpx⟩
    rw [List.length_pos]
    intro hnil
    have hmem := List.mem_filter.mpr ⟨hx, hpx⟩
    rw [hnil] at hmem
    exact absurd hmem (by simp)
  · intro h
    rw [List.length_pos] at h
    obtain ⟨x, hx⟩ := List.exists_mem_of_ne_nil _ h
    exact ⟨x, (List.mem_filter.mp hx).1, (List.mem_filter.mp hx).2⟩

/-- When the exact pass matches, `deleteBirthday` removes exactly the
exact matches and the fuzzy pass never runs. -/
theorem deleteBirthday_exact_pass (db : Db) (phone name : String)
    (h : db.any (exactDelPred phone name) = true) :
    deleteBirthday db phone name
      = (db.filter (fun b => !exactDelPred phone name b), true) := by
  unfold deleteBirthday
  rw [if_pos (any_iff_filter_pos.mp h)]

/-- C10 — when the exact case-insensitive pass matches no record, the
fallback pass removes every record of the owner whose name contains the
query as a case-insensitive substring (all of them, not one best match),
and the call returns true iff at least one record was removed. -/
theorem c10_fuzzy_delete_removes_all_substring_matches
    (db : Db) (phone name : String)
    (h : ∀ b ∈ db, exactDelPred phone name b = false) :
    (deleteBirthday db phone name).1
      = db.filter (fun b => !fuzzyDelPred phone name b)
    ∧ (deleteBirthday db phone name).2 = db.any (fuzzyDelPred phone name) := by
  have hex : db.filter (exactDelPred phone name) = [] :=
    List.filter_eq_nil_iff.mpr (fun b hb => by simp [h b hb])
  unfold deleteBirthday
  rw [hex]
  rw [if_neg (by simp)]
  by_cases hf : 0 < (db.filter (fuzzyDelPred phone name)).length
  · rw [if_pos hf]
    exact ⟨rfl, (any_iff_filter_pos.mpr hf).symm⟩
  · rw [if_neg hf]
    have hnil : db.filter (fuzzyDelPred phone name) = [] := by
      cases hl : db.filter (fuzzyDelPred phone name) with
      | nil => rfl
      | cons a t => exact absurd (by rw [hl]; simp) hf
    have hall : ∀ b ∈ db, fuzzyDelPred phone name b = false := by
      intro b hb
      have := List.filter_eq_nil_iff.mp hnil b hb
      simpa using this
    refine ⟨?_, ?_⟩
    · symm
      apply List.filter_eq_self.mpr
      intro b hb
      simp [hall b hb]
    · symm
      rw [List.any_eq_false]
      intro b hb
      simp [hall b hb]

/-- C10 at a concrete state: with the exact pass empty, deleting "varu"
removes both "Varun" and "Varuna" in one call and returns true. -/
theorem c10_witness :
    (deleteBirthday
        [⟨"owner1", "Varun", 29, "Aug"⟩, ⟨"owner1", "Varuna", 1, "Jan"⟩,
         ⟨"owner1", "Mira", 2, "Feb"⟩] "owner1" "varu").1
      = ([⟨"owner1", "Varun", 29, "Aug"⟩, ⟨"owner1", "Varuna", 1, "Jan"⟩,
          ⟨"owner1", "Mira", 2, "Feb"⟩] : Db).filter
          (fun b => !fuzzyDelPred "owner1" "varu" b)
    ∧ (deleteBirthday
        [⟨"owner1", "Varun", 29, "Aug"⟩, ⟨"owner1", "Varuna", 1, "Jan"⟩,
         ⟨"owner1", "Mira", 2, "Feb"⟩] "owner1" "varu").2
      = ([⟨"owner1", "Varun", 29, "Aug"⟩, ⟨"owner1", "Varuna", 1, "Jan"⟩,
          ⟨"owner1", "Mira", 2, "Feb"⟩] : Db).any
          (fuzzyDelPred "owner1" "varu") :=
  c10_fuzzy_delete_removes_all_substring_matches
    [⟨"owner1", "Varun", 29, "Aug"⟩, ⟨"owner1", "Varuna", 1, "Jan"⟩,
     ⟨"owner1", "Mira", 2, "Feb"⟩] "owner1" "varu" (by decide)

/-- C3 — saving a triplet whose normalized form already exists (name and
month case-insensitively, day exactly) performs no write, replies that
the birthday already exists, and reports the duplicate outcome; saving
the same triplet twice starting from a state with no such record leaves
exactly one matching record, the second attempt writing nothing and
reporting a duplicate. -/
theorem c3_duplicate_save_no_write (db : Db) (phone name month m : String)
    (day : Nat) (hm : normalizeMonthToShort (some month) = some m) :
    (birthdayExists db phone (jsTrim name) day m = true →
       saveBirthdayForUser db phone name day month
         = (db, [Reply.duplicate name m day], ⟨false, true⟩))
    ∧ (birthdayExists db phone (jsTrim name) day m = false →
       saveBirthdayForUser (saveBirthdayForUser db phone name day month).1
           phone name day month
         = ((saveBirthdayForUser db phone name day month).1,
            [Reply.duplicate name m day], ⟨false, true⟩)
       ∧ ((saveBirthdayForUser db phone name day month).1.filter
            (dupPred phone (jsTrim name) day m)).length = 1) := by
  constructor
  · intro hex
    unfold saveBirthdayForUser
    simp only [hm]
    rw [if_pos hex]
  · intro hex
    have hfil : db.filter (dupPred phone (jsTrim name) day m) = [] := by
      apply List.filter_eq_nil_iff.mpr
      intro b hb
      have := List.any_eq_false.mp (by simpa [birthdayExists] using hex) b hb
      simpa using this
    have h1 : saveBirthdayForUser db phone name day month
        = (saveBirthdayRow db phone (jsTrim name) day m,
           [Reply.saved name m day], ⟨true, false⟩) := by
      unfold saveBirthdayForUser
      simp only [hm]
      rw [if_neg (by simp [hex])]
    have hrow : dupPred phone (jsTrim name) day m
        ⟨phone, jsTrim name, day, m⟩ = true := by
      simp [dupPred, lowerEq]
    have hex2 : birthdayExists (saveBirthdayRow db phone (jsTrim name) day m)
        phone (jsTrim name) day m = true := by
      unfold birthdayExists saveBirthdayRow
      rw [List.any_append]
      simp [hrow]
    constructor
    · simp only [h1]
      unfold saveBirthdayForUser
      simp only [hm]
      rw [if_pos hex2]
    · simp only [h1]
      unfold saveBirthdayRow
      rw [List.filter_append, hfil]
      simp [hrow]

/-- C3 at a concrete state: the second save of ("Mom", 9, "Feb") is a
duplicate outcome and exactly one record is stored. -/
theorem c3_witness :
    saveBirthdayForUser (saveBirthdayForUser [] "owner1" "Mom" 9 "Feb").1
        "owner1" "Mom" 9 "Feb"
      = ((saveBirthdayForUser [] "owner1" "Mom" 9 "Feb").1,
         [Reply.duplicate "Mom" "Feb" 9], ⟨false, true⟩)
    ∧ ((saveBirthdayForUser [] "owner1" "Mom" 9 "Feb").1.filter
        (dupPred "owner1" (jsTrim "Mom") 9 "Feb")).length = 1 :=
  (c3_duplicate_save_no_write [] "owner1" "Mom" "Feb" "Feb" 9 (by decide)).2
    (by decide)

/-- Every name the delete loop records as deleted came from the candidate
list. -/
theorem delLoop_deleted_sub (phone : String) :
    ∀ (names : List String) (db : Db),
      ∀ n ∈ (delLoop db phone names).2.1, n ∈ names := by
  intro names
  induction names with
  | nil =>
    intro db n hn
    exact absurd hn (by simp [delLoop])
  | cons a rest ih =>
    intro db n hn
    unfold delLoop at hn
    split at hn
    · split at hn
      · exact List.mem_cons_of_mem a (ih _ n hn)
      · have hn2 : n ∈ a ::
            (delLoop (deleteBirthday db phone a).1 phone rest).2.1 := hn
        rcases List.mem_cons.mp hn2 with rfl | h2
        · exact List.mem_cons_self _ _
        · exact List.mem_cons_of_mem a (ih _ n h2)
    · exact List.mem_cons_of_mem a (ih _ n hn)

/-- C4 (amended) — for every delete request: exactly one reply is sent
(never a silent no-op); when at least one name was removed, the reply
lists the removed names, all drawn from the names split from the input
(the not-found names are not enumerated alongside); when nothing was
removed, the reply is the generic not-found message; per name, the exact
case-insensitive delete runs first and the substring pass never runs once
the exact pass matched; and deleting "varu" when only "Varun" exists
succeeds via the substring pass. -/
theorem c4_amended_delete_feedback :
    (∀ (db : Db) (phone input : String),
       (deleteBirthdayForUser db phone input).2.1.length = 1)
    ∧ (∀ (db : Db) (phone input : String),
       ((deleteBirthdayForUser db phone input).2.2 = true →
         ∃ ds, ds ≠ []
           ∧ (deleteBirthdayForUser db phone input).2.1 = [Reply.removed ds]
           ∧ ∀ n ∈ ds, n ∈ extractNamesFromDeleteInput input)
       ∧ ((deleteBirthdayForUser db phone input).2.2 = false →
         (deleteBirthdayForUser db phone input).2.1 = [Reply.couldNotFind]))
    ∧ (∀ (db : Db) (phone name : String),
       db.any (exactDelPred phone name) = true →
       deleteBirthday db phone name
         = (db.filter (fun b => !exactDelPred phone name b), true))
    ∧ deleteBirthdayForUser [⟨"owner1", "Varun", 29, "Aug"⟩] "owner1" "varu"
        = ([], [Reply.removed ["varu"]], true) := by
  refine ⟨?_, ?_, deleteBirthday_exact_pass, by decide⟩
  · intro db phone input
    unfold deleteBirthdayForUser
    split
    · rfl
    · split <;> rfl
  · intro db phone input
    unfold deleteBirthdayForUser
    split
    · exact ⟨fun h => Bool.noConfusion h, fun _ => rfl⟩
    · split
      · rename_i hpos
        refine ⟨fun _ => ?_, fun h => Bool.noConfusion h⟩
        refine ⟨(delLoop db phone (extractNamesFromDeleteInput input)).2.1,
          ?_, rfl, fun n hn => delLoop_deleted_sub phone _ db n hn⟩
        intro hnil
        rw [hnil] at hpos
        exact absurd hpos (by simp)
      · exact ⟨fun h => Bool.noConfusion h, fun _ => rfl⟩

/-- C4 counterexample to the claim as stated: with only "Tanni" stored,
deleting "Tanni, Papa" removes Tanni and sends the single removal reply,
whose payload does not mention the not-found name "Papa" at all. -/
theorem c4_counterexample :
    extractNamesFromDeleteInput "Tanni, Papa" = ["Tanni", "Papa"]
    ∧ deleteBirthdayForUser [⟨"owner1", "Tanni", 9, "Feb"⟩] "owner1"
        "Tanni, Papa" = ([], [Reply.removed ["Tanni"]], true)
    ∧ replyMentions (Reply.removed ["Tanni"]) "Papa" = false := by decide

/-- C4's per-turn feedback guarantee, applied at the counterexample's
input. -/
theorem c4_witness :
    (deleteBirthdayForUser [⟨"owner1", "Tanni", 9, "Feb"⟩] "owner1"
        "Tanni, Papa").2.1.length = 1 :=
  c4_amended_delete_feedback.1 [⟨"owner1", "Tanni", 9, "Feb"⟩] "owner1"
    "Tanni, Papa"

/-- `updateBirthday` rewrites nothing when no row matches. -/
theorem updateRows_no_match (phone name : String) (day : Nat) (m : String) :
    ∀ db : Db, (∀ b ∈ db, exactDelPred phone name b = false) →
      updateBirthdayRows db phone name day m = db := by
  intro db
  induction db with
  | nil => intro _; rfl
  | cons b rest ih =>
    intro hno
    unfold updateBirthdayRows at ih ⊢
    simp only [List.map_cons]
    rw [if_neg (by simp [hno b (List.mem_cons_self b rest)])]
    rw [ih (fun x hx => hno x (List.mem_cons_of_mem b hx))]

/-- C8 (amended) — an update whose target record does not exist (no record
of the owner matches the name case-insensitively) still replies with the
update confirmation and reports success, leaving the table unchanged; no
not-found outcome is produced (only an unparsable month makes the service
fail, silently). -/
theorem c8_amended_update_always_success (db : Db)
    (phone name month m : String) (day : Nat)
    (hm : normalizeMonthToShort (some month) = some m)
    (hno : ∀ b ∈ db, exactDelPred phone name b = false) :
    updateBirthdayForUser db phone name day (some month)
      = (db, [Reply.updated name m day], true) := by
  unfold updateBirthdayForUser
  simp only [hm]
  rw [updateRows_no_match phone name day m db hno]

/-- C8 counterexample to the claim as stated: updating "Bob" against a
table that has no Bob reports success and sends the "updated"
confirmation — not an informational not-found reply. -/
theorem c8_counterexample :
    updateBirthdayForUser [⟨"owner1", "Alice", 1, "Jan"⟩] "owner1" "Bob" 5
        (some "Jan")
      = ([⟨"owner1", "Alice", 1, "Jan"⟩],
         [Reply.updated "Bob" "Jan" 5], true)
    ∧ birthdayExistsByName [⟨"owner1", "Alice", 1, "Jan"⟩] "owner1" "Bob"
        = false := by decide

/-- C8's amended behavior at the counterexample's input, via the
theorem. -/
theorem c8_witness :
    updateBirthdayForUser [⟨"owner1", "Alice", 1, "Jan"⟩] "owner1" "Bob" 5
        (some "Jan")
      = ([⟨"owner1", "Alice", 1, "Jan"⟩],
         [Reply.updated "Bob" "Jan" 5], true) :=
  c8_amended_update_always_success [⟨"owner1", "Alice", 1, "Jan"⟩]
    "owner1" "Bob" "Jan" "Jan" 5 (by decide) (by decide)


/-! ## fuzzyMatch.js -/

/-- One row fill of the Levenshtein DP matrix (fuzzyMatch.js lines 26-38):
`diag` is the above-left entry, `above` the remainder of the previous row
aligned with `b`, `left` the entry just written in the current row. -/
def fillRow (c : Char) : List Char → Nat → List Nat → Nat → List Nat
  | [], _, _, _ => []
  | _ :: _, _, [], _ => []
  | bj :: brest, diag, aj :: arest, left =>
    let cur := if c == bj then diag
      else min (min (aj + 1) (left + 1)) (diag + 1)
    cur :: fillRow c brest aj arest cur

/-- Row iteration of the DP (fuzzyMatch.js lines 26-38): `row` is
matrix[i], built from matrix[i-1]. -/
def levLoop (b : List Char) : List Char → Nat → List Nat → List Nat
  | [], _, row => row
  | c :: arest, i, row =>
    levLoop b arest (i + 1)
      ((i + 1) :: fillRow c b (row.headD 0) row.tail (i + 1))

/-- `levenshteinDistance(str1, str2)` (fuzzyMatch.js lines 9-41):
lowercases both, fills the matrix, reads matrix[len1][len2]. -/
def levenshteinDistance (str1 str2 : String) : Nat :=
  (levLoop (jsToLower str2).toList (jsToLower str1).toList 0
    (List.range ((jsToLower str2).toList.length + 1))).getLastD 0

/-- `similarity(str1, str2)` (fuzzyMatch.js lines 49-55); the JS floats
are modelled as exact rationals. -/
def similarity (str1 str2 : String) : ℚ :=
  if max str1.length str2.length == 0 then 1
  else 1 - (levenshteinDistance str1 str2 : ℚ)
    / (max str1.length str2.length : ℚ)

/-- The match-type tags of `fuzzyMatch`. -/
inductive MatchType
  | exact
  | startsWith
  | substring
  | fuzzy
  | wordStartsWith
  | wordSubstring
  | wordFuzzy
  deriving DecidableEq, Repr

/-- The `{name, score, type}` object `fuzzyMatch` returns. -/
structure FuzzyResult where
  name : String
  score : ℚ
  type : MatchType
  deriving DecidableEq, Repr

mutual

/-- JS `split(/\s+/)`: collect the current segment up to a whitespace
run. -/
def splitWsSeg (cur : List Char) : List Char → List (List Char)
  | [] => [cur.reverse]
  | c :: rest =>
    if jsWs c then cur.reverse :: splitWsSep rest
    else splitWsSeg (c :: cur) rest

/-- JS `split(/\s+/)`: inside a whitespace run; a trailing run yields a
trailing empty segment, as JS does. -/
def splitWsSep : List Char → List (List Char)
  | [] => [[]]
  | c :: rest => if jsWs c then splitWsSep rest else splitWsSeg [c] rest

end

/-- JS `s.split(/\s+/)` on a string. -/
def splitWsStr (s : String) : List String := (splitWsSeg [] s.toList).map String.mk

/-- The per-word pass of `fuzzyMatch` (fuzzyMatch.js lines 90-103), first
matching word wins. -/
def wordLoop (queryLower name : String) : List String → Option FuzzyResult
  | [] => none
  | word :: rest =>
    if jsStartsWith word queryLower && 2 ≤ queryLower.length then
      some ⟨name, 4/5, .wordStartsWith⟩
    else if containsSeq queryLower.toList word.toList
        && 2 ≤ queryLower.length then
      some ⟨name, 13/20, .wordSubstring⟩
    else if similarity queryLower word ≥ 3/5 then
      some ⟨name, similarity queryLower word * (9/10), .wordFuzzy⟩
    else wordLoop queryLower name rest

/-- `fuzzyMatch(query, name)` (fuzzyMatch.js lines 63-106): the strict
precedence of match strategies, each with its fixed score; falsy (empty)
arguments yield no match. -/
def fuzzyMatch (query name : String) : Option FuzzyResult :=
  if query == "" || name == "" then none
  else
    if jsTrim (jsToLower query) == jsTrim (jsToLower name) then
      some ⟨name, 1, .exact⟩
    else if jsStartsWith (jsTrim (jsToLower name)) (jsTrim (jsToLower query))
        && 2 ≤ (jsTrim (jsToLower query)).length then
      some ⟨name, 9/10, .startsWith⟩
    else if containsSeq (jsTrim (jsToLower query)).toList
          (jsTrim (jsToLower name)).toList
        && 2 ≤ (jsTrim (jsToLower query)).length then
      some ⟨name, 7/10, .substring⟩
    else if similarity (jsTrim (jsToLower query)) (jsTrim (jsToLower name))
        ≥ 3/5 then
      some ⟨name,
        similarity (jsTrim (jsToLower query)) (jsTrim (jsToLower name)),
        .fuzzy⟩
    else
      wordLoop (jsTrim (jsToLower query)) name
        (splitWsStr (jsTrim (jsToLower name)))

/-- A fuzzy match row of `findFuzzyMatches`: the birthday row with its
match score and type spread in. -/
structure MatchRow where
  row : Birthday
  matchScore : ℚ
  matchType : MatchType
  deriving DecidableEq, Repr

/-- `findFuzzyMatches(query, birthdays, minScore)` (fuzzyMatch.js lines
115-142): filter by score, sort by descending score with ties by name
ascending (the V8 sort is stable; `localeCompare` is modelled as
character-code order). -/
def findFuzzyMatches (query : String) (birthdays : List Birthday)
    (minScore : ℚ) : List MatchRow :=
  if query == "" || birthdays.isEmpty then []
  else
    (birthdays.filterMap (fun b =>
      match fuzzyMatch query b.name with
      | none => none
      | some m =>
        if m.score ≥ minScore then some (⟨b, m.score, m.type⟩ : MatchRow)
        else none)).mergeSort
      (fun x y =>
        if x.matchScore == y.matchScore then decide (x.row.name ≤ y.row.name)
        else decide (x.matchScore > y.matchScore))

/-- `getAllBirthdays(phone)` (db.js lines 77-88): the owner's rows ordered
by month as text, then day. -/
def getAllBirthdays (db : Db) (phone : String) : List Birthday :=
  (db.filter (fun b => b.phone == phone)).mergeSort
    (fun x y =>
      if x.month == y.month then decide (x.day ≤ y.day)
      else decide (x.month < y.month))

/-- `fuzzySearchBirthdayByName(phone, query)` (birthday.service lines
264-292): found flag and the reply sent. -/
def fuzzySearchBirthdayByName (db : Db) (phone query : String) :
    Bool × List Reply :=
  if (getAllBirthdays db phone).isEmpty then (false, [])
  else
    match findFuzzyMatches query (getAllBirthdays db phone) (3/5) with
    | [] => (false, [])
    | [b] => (true, [Reply.birthdayIs b.row.name b.row.month b.row.day])
    | ms => (true, [Reply.matchList (ms.map (fun x => x.row))])

/-- C9 (amended) — for every nonempty string s, `fuzzyMatch(s, s)` is the
exact match type with score 1.0 (the comparison lowercases and trims both
sides, so it is case-insensitive). -/
theorem c9_amended_fuzzy_self_exact (s : String) (h : s ≠ "") :
    fuzzyMatch s s = some ⟨s, 1, MatchType.exact⟩ := by
  have hb : (s == "") = false := beq_eq_false_iff_ne.mpr h
  simp [fuzzyMatch, hb]

/-- C9 counterexample to the claim as stated: on the empty string the
falsy-argument guard fires first and `fuzzyMatch` returns no match at
all, not an exact match with score 1.0. -/
theorem c9_counterexample : fuzzyMatch "" "" = none := by decide

/-- C9's amended statement at a concrete string, via the theorem. -/
theorem c9_witness :
    fuzzyMatch "Anna" "Anna" = some ⟨"Anna", 1, MatchType.exact⟩ :=
  c9_amended_fuzzy_self_exact "Anna" (by decide)

/-! ## llm.js — parseIntentWithLLM -/

/-- The JSON object shape the adapter reads from the model response;
`none` is a JSON null or an absent field. -/
structure LLMJson where
  intent : Option String
  name : Option String
  day : Option Nat
  month : Option String
  deriving DecidableEq, Repr

/-- JS truthiness of a string field: null/undefined and "" are falsy. -/
def truthyOptStr : Option String → Bool
  | none => false
  | some s => !(s == "")

/-- JS truthiness of a number field: null/undefined and 0 are falsy
(negative JSON numbers do not arise in the schema and are outside the
model). -/
def truthyOptNat : Option Nat → Bool
  | none => false
  | some n => !(n == 0)

/-- The `{ intent: "unknown" }` default: unknown intent, every slot
absent. -/
def unknownParsed : LLMJson := ⟨some "unknown", none, none, none⟩

/-- `parseIntentWithLLM(message)` (llm.js lines 62-139).  The adapter
makes exactly one external call; that call, together with the
`JSON.parse` of its content, is the `response` argument — `Except.error`
stands for a thrown call or malformed/unparsable content, both landing in
the same catch.  The adapter is a total function (no exception escapes,
no retry exists), validates the intent field and the per-intent required
slots, and downgrades to the unknown default. -/
def parseIntentWithLLM (message : String) (response : Except Unit LLMJson) :
    LLMJson :=
  if jsTrim message == "" then unknownParsed
  else
    match response with
    | .error _ => unknownParsed
    | .ok parsed =>
      if !truthyOptStr parsed.intent then unknownParsed
      else if parsed.intent == some "save"
          && (!truthyOptStr parsed.name || !truthyOptNat parsed.day
              || !truthyOptStr parsed.month) then unknownParsed
      else if parsed.intent == some "delete" && !truthyOptStr parsed.name then
        unknownParsed
      else if parsed.intent == some "update"
          && (!truthyOptStr parsed.name || !truthyOptNat parsed.day
              || !truthyOptStr parsed.month) then unknownParsed
      else parsed

/-- C1 — the adapter always terminates with a ParsedIntent (it is a total
function of the message and the one response, so no exception propagates
and no retry beyond the single attempt exists), and whenever the external
call throws, its response is malformed or unparsable, or the parsed
object's intent field is missing/falsy, the result is the unknown default
with every slot null. -/
theorem c1_classifier_failure_yields_unknown (message : String)
    (response : Except Unit LLMJson)
    (h : response = .error () ∨
      ∃ p, response = .ok p ∧ truthyOptStr p.intent = false) :
    parseIntentWithLLM message response = unknownParsed := by
  unfold parseIntentWithLLM
  rcases h with rfl | ⟨p, rfl, hp⟩
  · split <;> rfl
  · split
    · rfl
    · simp [hp]

/-- C1 at concrete inputs: a thrown call and a response with no intent
field both produce the unknown default. -/
theorem c1_witness :
    parseIntentWithLLM "hello" (Except.error ()) = unknownParsed
    ∧ parseIntentWithLLM "hello" (Except.ok ⟨none, some "Papa", some 14, none⟩)
        = unknownParsed :=
  ⟨c1_classifier_failure_yields_unknown "hello" (Except.error ()) (Or.inl rfl),
   c1_classifier_failure_yields_unknown "hello"
     (Except.ok ⟨none, some "Papa", some 14, none⟩)
     (Or.inr ⟨⟨none, some "Papa", some 14, none⟩, rfl, rfl⟩)⟩

/-- C5 — a response declaring intent save or update without all of name,
day and month (in the JS truthy sense), or delete without a name, is
downgraded to the unknown default regardless of the declared label. -/
theorem c5_slot_validation_downgrade (message : String) (p : LLMJson)
    (h : ((p.intent = some "save" ∨ p.intent = some "update")
           ∧ (truthyOptStr p.name = false ∨ truthyOptNat p.day = false
              ∨ truthyOptStr p.month = false))
         ∨ (p.intent = some "delete" ∧ truthyOptStr p.name = false)) :
    parseIntentWithLLM message (.ok p) = unknownParsed := by
  unfold parseIntentWithLLM
  split
  · rfl
  · rcases h with ⟨hi, hmiss⟩ | ⟨hi, hname⟩
    · have hmB : (!truthyOptStr p.name || !truthyOptNat p.day
          || !truthyOptStr p.month) = true := by
        rcases hmiss with hm | hm | hm <;> simp [hm]
      rcases hi with hi | hi
      · have h1 : (!truthyOptStr p.intent) = false := by
          simp [hi, truthyOptStr]
        have h2 : (p.intent == some "save") = true := by simp [hi]
        simp [h1, h2, hmB]
      · have h1 : (!truthyOptStr p.intent) = false := by
          simp [hi, truthyOptStr]
        have h2 : (p.intent == some "save") = false := by simp [hi]
        have h3 : (p.intent == some "delete") = false := by simp [hi]
        have h4 : (p.intent == some "update") = true := by simp [hi]
        simp [h1, h2, h3, h4, hmB]
    · have h1 : (!truthyOptStr p.intent) = false := by
        simp [hi, truthyOptStr]
      have h2 : (p.intent == some "save") = false := by simp [hi]
      have h3 : (p.intent == some "delete") = true := by simp [hi]
      simp [h1, h2, h3, hname]

/-- C5 at concrete inputs: a save response with no slots and a delete
response with no name both collapse to unknown. -/
theorem c5_witness :
    parseIntentWithLLM "papa birthday" (Except.ok ⟨some "save", none, none, none⟩)
      = unknownParsed
    ∧ parseIntentWithLLM "remove it" (Except.ok ⟨some "delete", none, some 3, some "Jan"⟩)
      = unknownParsed :=
  ⟨c5_slot_validation_downgrade "papa birthday" ⟨some "save", none, none, none⟩
     (Or.inl ⟨Or.inl rfl, Or.inl rfl⟩),
   c5_slot_validation_downgrade "remove it" ⟨some "delete", none, some 3, some "Jan"⟩
     (Or.inr ⟨rfl, rfl⟩)⟩

/-! ## month.utils.js — extractMonthFromText -/

/-- At-position matcher for the bare numeric token `\b(\d{1,2})\b`. -/
def matchNum12At (l : List Char) : Option Nat :=
  digits12K l (fun v _ r1 => if boundaryAfter r1 then some v else none)

/-- First bare 1-2 digit number with boundaries. -/
def findNum12 (lower : List Char) : Option Nat := scanB matchNum12At false lower

/-- Numeric fallback of `extractMonthFromText` (month.utils.js lines
131-142): only the first numeric match is considered. -/
def extractMonthNumeric (lower : List Char) : Option String :=
  match findNum12 lower with
  | none => none
  | some num =>
    if 1 ≤ num ∧ num ≤ 12 then
      match normalizeMonthToShort (some (natToString num)) with
      | some n => some n
      | none => none
    else none

/-- `extractMonthFromText(message)` (month.utils.js lines 114-146): first
month word wins, else the first in-range numeric token. -/
def extractMonthFromText (message : String) : Option String :=
  if jsTrim message == "" then none
  else
    match findMonthWord (jsToLower message).toList with
    | some txt =>
      match normalizeMonthToShort (some (String.mk txt)) with
      | some n => some n
      | none => extractMonthNumeric (jsToLower message).toList
    | none => extractMonthNumeric (jsToLower message).toList

/-- `month.charAt(0).toUpperCase() + month.slice(1)`. -/
def capitalizeFirst (s : String) : String :=
  match s.toList with
  | [] => ""
  | c :: rest => String.mk (c.toUpper :: rest)

/-! ## multiline.parser.js -/

/-- An apostrophe, kept out of string literals. -/
def apos : String := String.mk [Char.ofNat 39]

/-- Outcome of one line of a multi-line save (multiline.parser.js lines
8-48). -/
inductive SaveLineOutcome
  | empty (line : String)
  | parseFailed (line : String)
  | dup (name : String) (day : Nat) (month : String)
  | ok (name : String) (day : Nat) (month : String)
  deriving DecidableEq, Repr

/-- `processSaveLine(phone, line)`: flexible parser first, legacy pattern
second; both normalize the month at write time and check the duplicate
before inserting. -/
def processSaveLine (db : Db) (phone line : String) : Db × SaveLineOutcome :=
  if jsTrim line == "" then (db, .empty line)
  else
    match parseNameAndDate (jsTrim line) with
    | some p =>
      match normalizeMonthToShort (some p.month) with
      | none => (db, .parseFailed (jsTrim line))
      | some nm =>
        if birthdayExists db phone (jsTrim p.name) p.day nm then
          (db, .dup p.name p.day nm)
        else
          (saveBirthdayRow db phone (jsTrim p.name) p.day nm, .ok p.name p.day nm)
    | none =>
      match matchLegacySave (jsTrim line).toList with
      | some (name, month, dayStr) =>
        match normalizeMonthToShort (some month) with
        | none => (db, .parseFailed (jsTrim line))
        | some nm =>
          if birthdayExists db phone (jsTrim name) (digitsToNat dayStr.toList) nm then
            (db, .dup name (digitsToNat dayStr.toList) nm)
          else
            (saveBirthdayRow db phone (jsTrim name) (digitsToNat dayStr.toList) nm,
             .ok name (digitsToNat dayStr.toList) nm)
      | none => (db, .parseFailed (jsTrim line))

/-- The nonempty trimmed lines of a message. -/
def msgLines (message : String) : List String :=
  ((splitOnChar (Char.ofNat 10) message.toList).map
    (fun l => jsTrim (String.mk l))).filter (fun l => 0 < l.length)

/-- The per-line loop of `processMultilineMessage`, threading the table. -/
def mlLoop (db : Db) (phone : String) : List String → Db × List SaveLineOutcome
  | [] => (db, [])
  | l :: rest =>
    ((mlLoop (processSaveLine db phone l).1 phone rest).1,
     (processSaveLine db phone l).2
       :: (mlLoop (processSaveLine db phone l).1 phone rest).2)

/-- Summary text built from the per-line outcomes (multiline.parser.js
lines 75-97). -/
def mlSummary (lines : List String) (outcomes : List SaveLineOutcome) : String :=
  (if (outcomes.filterMap (fun o => match o with
        | .ok n d m => some (n, d, m) | _ => none)) ≠ [] then
     "I" ++ apos ++ "ve saved:\n"
     ++ String.join ((outcomes.filterMap (fun o => match o with
          | .ok n d m => some (n, d, m) | _ => none)).map
        (fun x => "• " ++ x.1 ++ " – " ++ x.2.2 ++ " "
          ++ natToString x.2.1 ++ "\n"))
     ++ (if (outcomes.filterMap (fun o => match o with
          | .ok n d m => some (n, d, m) | _ => none)).length = lines.length
         then "🎂" else "")
   else "")
  ++ (if (outcomes.filterMap (fun o => match o with
        | .ok _ _ _ => none
        | .dup n d m => some (Sum.inl (n, d, m))
        | .parseFailed l => some (Sum.inr l)
        | .empty l => some (Sum.inr l))) ≠ [] then
      (if (outcomes.filterMap (fun o => match o with
            | .ok n d m => some (n, d, m) | _ => none)) ≠ [] then "\n" else "")
      ++ "I couldn" ++ apos ++ "t understand:\n"
      ++ String.join ((outcomes.filterMap (fun o => match o with
           | .ok _ _ _ => none
           | .dup n d m => some (Sum.inl (n, d, m))
           | .parseFailed l => some (Sum.inr l)
           | .empty l => some (Sum.inr l))).map
         (fun e => match e with
          | Sum.inl (n, d, m) =>
            "• " ++ n ++ " – already saved on " ++ m ++ " "
              ++ natToString d ++ "\n"
          | Sum.inr l => "• " ++ l ++ "\n"))
     else "")

/-- `processMultilineMessage(phone, message)` (multiline.parser.js lines
51-100): null unless the message has at least two nonempty lines. -/
def processMultilineMessage (db : Db) (phone message : String) :
    Db × Option String :=
  if (msgLines message).length ≤ 1 then (db, none)
  else
    ((mlLoop db phone (msgLines message)).1,
     if mlSummary (msgLines message) (mlLoop db phone (msgLines message)).2
         == "" then none
     else some (jsTrim (mlSummary (msgLines message)
       (mlLoop db phone (msgLines message)).2)))

/-! ## Controller regex fallbacks (part_000 of the controller) -/

/-- `^(?:delete|remove)\s+(.+)$` (controller line 173). -/
def matchDeleteCmd (lower : List Char) : Option String :=
  tryFormsK ["delete", "remove"] lower (fun _ r0 =>
    runPlusDescK jsWs r0 (fun _ r1 =>
      runPlusDescK (fun c => c != Char.ofNat 10) r1 (fun cap r2 =>
        if r2.isEmpty then some (String.mk cap) else none)))

/-- `^(?:change|update)\s+(.+?)\s+(?:to|birthday to)\s+([a-z]+)\s+(\d+)$`
(controller lines 181-183): name, month word, day digits. -/
def matchUpdateCmd (lower : List Char) : Option (String × String × String) :=
  tryFormsK ["change", "update"] lower (fun _ r0 =>
    runPlusDescK jsWs r0 (fun _ r1 =>
      runPlusAscK (fun c => c != Char.ofNat 10) r1 (fun nameC r2 =>
        runPlusDescK jsWs r2 (fun _ r3 =>
          tryFormsK ["to", "birthday to"] r3 (fun _ r4 =>
            runPlusDescK jsWs r4 (fun _ r5 =>
              runPlusDescK Char.isAlpha r5 (fun monC r6 =>
                runPlusDescK jsWs r6 (fun _ r7 =>
                  runPlusDescK Char.isDigit r7 (fun dayC r8 =>
                    if r8.isEmpty then
                      some (String.mk nameC, String.mk monC, String.mk dayC)
                    else none)))))))))

/-- `(?:when is|show me|birthday of|birthday)\s+([a-z\s]+?)(?:\s+birthday|\?|$)`
(controller line 254), leftmost and lazy as in JS. -/
def matchSearchNameAt (l : List Char) : Option String :=
  tryFormsK ["when is", "show me", "birthday of", "birthday"] l (fun _ r0 =>
    runPlusDescK jsWs r0 (fun _ r1 =>
      runPlusAscK (fun c => c.isAlpha || jsWs c) r1 (fun q r2 =>
        (runPlusDescK jsWs r2 (fun _ r3 =>
           if prefixCI "birthday".toList r3 then some (String.mk q) else none))
        <|> (match r2 with
             | c :: _ => if c == '?' then some (String.mk q) else none
             | [] => none)
        <|> (if r2.isEmpty then some (String.mk q) else none))))

/-- Scan driver for the search-by-name fallback. -/
def matchSearchName (lower : List Char) : Option String :=
  scanPlain matchSearchNameAt lower

/-- `(?:who has birthday on|birthdays on|who is born on)\s+(\d{1,2})(?:st|nd|rd|th)?\s+([a-z]+)`
(controller line 264). -/
def matchSearchDateAt (l : List Char) : Option (Nat × String) :=
  tryFormsK ["who has birthday on", "birthdays on", "who is born on"] l
    (fun _ r0 =>
      runPlusDescK jsWs r0 (fun _ r1 =>
        digits12K r1 (fun d _ r2 =>
          (tryFormsK ["st", "nd", "rd", "th"] r2 (fun _ r3 =>
             runPlusDescK jsWs r3 (fun _ r4 =>
               runPlusDescK Char.isAlpha r4
                 (fun mon _ => some (d, String.mk mon)))))
          <|> (runPlusDescK jsWs r2 (fun _ r4 =>
             runPlusDescK Char.isAlpha r4
               (fun mon _ => some (d, String.mk mon)))))))

/-- Scan driver for search-by-date. -/
def matchSearchDate (lower : List Char) : Option (Nat × String) :=
  scanPlain matchSearchDateAt lower

/-- `(?:birthdays on|who has birthday on)\s+(\d{1,2})` then slash or dash
then `(\d{1,2})` (controller line 277). -/
def matchNumericDateAt (l : List Char) : Option (Nat × Nat) :=
  tryFormsK ["birthdays on", "who has birthday on"] l (fun _ r0 =>
    runPlusDescK jsWs r0 (fun _ r1 =>
      digits12K r1 (fun d _ r2 =>
        match r2 with
        | sep :: r3 =>
          if sep == '/' || sep == '-' then
            digits12K r3 (fun m _ _ => some (d, m))
          else none
        | [] => none)))

/-- Scan driver for the numeric search-by-date fallback. -/
def matchNumericDateSearch (lower : List Char) : Option (Nat × Nat) :=
  scanPlain matchNumericDateAt lower

/-- `(?:show me|who has birthday in|birthdays in)\s+([a-z]+)` (controller
line 291). -/
def matchSearchMonthAt (l : List Char) : Option String :=
  tryFormsK ["show me", "who has birthday in", "birthdays in"] l (fun _ r0 =>
    runPlusDescK jsWs r0 (fun _ r1 =>
      runPlusDescK Char.isAlpha r1 (fun mon _ => some (String.mk mon))))

/-- Scan driver for search-by-month. -/
def matchSearchMonth (lower : List Char) : Option String :=
  scanPlain matchSearchMonthAt lower

/-- Tail `birthdays?\s+in\s+([a-z]+)` of the what-are-the-birthdays
pattern. -/
def whatBTail (l : List Char) : Option String :=
  tryFormsK ["birthdays", "birthday"] l (fun _ r0 =>
    runPlusDescK jsWs r0 (fun _ r1 =>
      tryFormsK ["in"] r1 (fun _ r2 =>
        runPlusDescK jsWs r2 (fun _ r3 =>
          runPlusDescK Char.isAlpha r3 (fun mon _ => some (String.mk mon))))))

/-- The full what-are/whats pattern with the optional `the` (controller
line 305). -/
def matchWhatBirthdaysAt (l : List Char) : Option String :=
  tryFormsK ["what are", "what" ++ apos ++ "re", "what" ++ apos ++ "s"] l
    (fun _ r0 =>
      runPlusDescK jsWs r0 (fun _ r1 =>
        (tryFormsK ["the"] r1 (fun _ r2 =>
           runPlusDescK jsWs r2 (fun _ r3 => whatBTail r3)))
        <|> whatBTail r1))

/-- Scan driver for the what-are-the-birthdays fallback. -/
def matchWhatBirthdays (lower : List Char) : Option String :=
  scanPlain matchWhatBirthdaysAt lower

/-- The date-shape test guarding the fuzzy stage (controller line 333):
1-2 digits then slash or dash then 1-2 digits, or 1-2 digits with an
ordinal suffix, anywhere in the text. -/
def looksLikeDateAt (l : List Char) : Option Unit :=
  digits12K l (fun _ _ r1 =>
    (match r1 with
     | sep :: r2 =>
       if sep == '/' || sep == '-' then digits12K r2 (fun _ _ _ => some ())
       else none
     | [] => none)
    <|> tryFormsK ["st", "nd", "rd", "th"] r1 (fun _ _ => some ()))

/-- `looksLikeDate` as a Boolean test. -/
def looksLikeDate (s : String) : Bool :=
  (scanPlain looksLikeDateAt s.toList).isSome

/-- The command-verb test guarding the fuzzy stage (controller line 334),
anchored and case-insensitive. -/
def looksLikeCommand (s : String) : Bool :=
  (tryFormsK ["save", "delete", "remove", "change", "update", "list",
    "show", "help", "complete"] s.toList (fun _ _ => some ())).isSome

/-! ## The resolution engine (controller part_000, handleIncomingMessage)

Each stage is one block of the controller in source order, a function
returning `some action` when the block replies and terminates the turn,
`none` when it falls through.  The classifier's output — already consumed
at controller line 73, before any of the keyword stages — is the `parsed`
argument of type `LLMJson`, and the current month (a clock read) is the
pair `cm`/`cmn`. -/

/-- The terminal action a turn dispatches. -/
inductive BotAction
  | welcome
  | multiline (summary : String)
  | help
  | listAll
  | listMonth (month monthName : String)
  | llmSaveHandled (name : String) (day : Nat) (month : String)
  | deleteCmd (input : String)
  | updateHandled (name : String) (day : Nat) (month : Option String)
  | regexDeleteCmd (input : String)
  | regexUpdateHandled (name : String) (day : Nat) (month : String)
  | parserSaveHandled
  | legacySaveHandled
  | searchName (q : String)
  | searchDate (day : Nat) (month : String)
  | upcoming
  | fuzzyReply (q : String)
  | serverError
  | fallback
  deriving DecidableEq, Repr

/-- Controller lines 50-54: onboarding short-circuit. -/
def stageOnboarding (userKnown : Bool) : Option BotAction :=
  if !userKnown then some .welcome else none

/-- Controller lines 56-64: multi-line batch save. -/
def stageMultiline (db : Db) (phone message : String) : Option BotAction :=
  (processMultilineMessage db phone message).2.map BotAction.multiline

/-- Controller lines 66-70: explicit help keyword. -/
def stageHelp (message : String) : Option BotAction :=
  if jsIncludes (jsToLower message) "help" then some .help else none

/-- Controller lines 76-79: the classifier's list_all intent. -/
def stageLlmListAll (parsed : LLMJson) : Option BotAction :=
  if parsed.intent == some "list_all" then some .listAll else none

/-- Controller lines 81-104: the classifier's list_month intent; an
explicit month in the message wins, otherwise the current month (the
source's second and third branches differ only in their log line). -/
def stageLlmListMonth (message cm cmn : String) (parsed : LLMJson) :
    Option BotAction :=
  if parsed.intent == some "list_month" then
    match extractMonthFromText message with
    | some m => some (.listMonth m (capitalizeFirst m))
    | none => some (.listMonth cm cmn)
  else none

/-- Controller lines 107-114: the list-all keyword phrases. -/
def stageRegexListAll (message : String) : Option BotAction :=
  if jsIncludes (jsToLower message) "all birthdays"
      || jsIncludes (jsToLower message) "complete list"
      || jsIncludes (jsToLower message) "everything saved" then
    some .listAll
  else none

/-- Controller lines 116-124: the this-month keyword, only without an
explicit month name in the message. -/
def stageRegexThisMonth (message cm cmn : String) : Option BotAction :=
  if jsIncludes (jsToLower message) "this month"
      && (extractMonthFromText message).isNone then
    some (.listMonth cm cmn)
  else none

/-- Controller lines 127-151: the classifier's save intent; the
deterministic parser's triplet is preferred, the classifier's slots are
the fallback; the stage terminates only when the save service reports
success or duplicate. -/
def stageLlmSave (db : Db) (phone message : String) (parsed : LLMJson) :
    Option BotAction :=
  if parsed.intent == some "save" then
    match parseNameAndDate message with
    | some p =>
      if !(jsTrim p.name == "") && !(p.day == 0) && !(p.month == "") then
        if (saveBirthdayForUser db phone (jsTrim p.name) p.day p.month).2.2.success
            || (saveBirthdayForUser db phone (jsTrim p.name) p.day p.month).2.2.duplicate then
          some (.llmSaveHandled (jsTrim p.name) p.day p.month)
        else none
      else none
    | none =>
      if !(jsTrim (parsed.name.getD "") == "") && truthyOptNat parsed.day
          && truthyOptStr parsed.month then
        match parsed.day, parsed.month with
        | some d, some m =>
          if (saveBirthdayForUser db phone (jsTrim (parsed.name.getD "")) d m).2.2.success
              || (saveBirthdayForUser db phone (jsTrim (parsed.name.getD "")) d m).2.2.duplicate then
            some (.llmSaveHandled (jsTrim (parsed.name.getD "")) d m)
          else none
        | _, _ => none
      else none
  else none

/-- Controller lines 153-157: the classifier's delete intent terminates
unconditionally; a null name makes `parsed.name.trim()` throw, which the
top-level catch swallows (no reply at all). -/
def stageLlmDelete (parsed : LLMJson) : Option BotAction :=
  if parsed.intent == some "delete" then
    match parsed.name with
    | none => some .serverError
    | some n => some (.deleteCmd (jsTrim n))
  else none

/-- Controller lines 159-168: the classifier's update intent; a null name
throws (caught above); a null day is parseInt NaN, which the SQL layer
rejects when the month normalizes (also caught above) and which falls
through silently when it does not; otherwise the stage terminates iff the
update service reports success. -/
def stageLlmUpdate (db : Db) (phone : String) (parsed : LLMJson) :
    Option BotAction :=
  if parsed.intent == some "update" then
    match parsed.name with
    | none => some .serverError
    | some n =>
      match parsed.day with
      | none =>
        match normalizeMonthToShort parsed.month with
        | none => none
        | some _ => some .serverError
      | some d =>
        if (updateBirthdayForUser db phone (jsTrim n) d parsed.month).2.2 then
          some (.updateHandled (jsTrim n) d parsed.month)
        else none
  else none

/-- Controller lines 172-178: regex delete fallback. -/
def stageRegexDelete (message : String) : Option BotAction :=
  (matchDeleteCmd (jsToLower message).toList).map
    (fun nm => BotAction.regexDeleteCmd (jsTrim nm))

/-- Controller lines 180-190: regex update fallback; terminates iff the
update service reports success. -/
def stageRegexUpdate (db : Db) (phone message : String) : Option BotAction :=
  match matchUpdateCmd (jsToLower message).toList with
  | none => none
  | some (nm, mon, dayStr) =>
    if (updateBirthdayForUser db phone (jsTrim nm) (digitsToNat dayStr.toList)
        (some mon)).2.2 then
      some (.regexUpdateHandled (jsTrim nm) (digitsToNat dayStr.toList) mon)
    else none

/-- Controller lines 192-196: flexible save on the whole message. -/
def stageSaveFromMessage (db : Db) (phone message : String) :
    Option BotAction :=
  if (saveBirthdayFromMessage db phone message).2.2.success
      || (saveBirthdayFromMessage db phone message).2.2.duplicate then
    some .parserSaveHandled
  else none

/-- Controller lines 198-202: legacy save pattern. -/
def stageLegacySave (db : Db) (phone message : String) : Option BotAction :=
  if (saveBirthdayFromLegacyPattern db phone message).2.2.success
      || (saveBirthdayFromLegacyPattern db phone message).2.2.duplicate then
    some .legacySaveHandled
  else none

/-- Controller lines 206-211: classifier search_name intent. -/
def stageSearchNameIntent (parsed : LLMJson) : Option BotAction :=
  if parsed.intent == some "search_name" && truthyOptStr parsed.name then
    some (.searchName (jsTrim (parsed.name.getD "")))
  else none

/-- Controller lines 213-223: classifier search_date intent; an invalid
month falls through. -/
def stageSearchDateIntent (parsed : LLMJson) : Option BotAction :=
  if parsed.intent == some "search_date" && truthyOptNat parsed.day
      && truthyOptStr parsed.month then
    match parsed.day, normalizeMonthToShort parsed.month with
    | some d, some nm => some (.searchDate d nm)
    | _, _ => none
  else none

/-- Controller lines 225-243: classifier search_month intent; the message
text wins over the classifier's month slot. -/
def stageSearchMonthIntent (message : String) (parsed : LLMJson) :
    Option BotAction :=
  if parsed.intent == some "search_month" then
    match extractMonthFromText message with
    | some nm => some (.listMonth nm (capitalizeFirst nm))
    | none =>
      match parsed.month with
      | some pm =>
        match normalizeMonthToShort (some pm) with
        | some nm => some (.listMonth nm (capitalizeFirst nm))
        | none => none
      | none => none
  else none

/-- Controller lines 245-249: classifier upcoming intent. -/
def stageUpcomingIntent (parsed : LLMJson) : Option BotAction :=
  if parsed.intent == some "upcoming" then some .upcoming else none

/-- Controller lines 253-261: regex search-by-name fallback. -/
def stageRegexSearchName (message : String) : Option BotAction :=
  match matchSearchName (jsToLower message).toList with
  | none => none
  | some q => if 0 < (jsTrim q).length then some (.searchName (jsTrim q)) else none

/-- Controller lines 263-274: regex search-by-date fallback. -/
def stageRegexSearchDate (message : String) : Option BotAction :=
  match matchSearchDate (jsToLower message).toList with
  | none => none
  | some (d, mon) =>
    match normalizeMonthToShort (some mon) with
    | some nm => some (.searchDate d nm)
    | none => none

/-- The controller's local month-name array (lines 281-282). -/
def controllerMonthNames : List String :=
  ["Jan", "Feb", "Mar", "Apr", "May", "Jun",
   "Jul", "Aug", "Sep", "Oct", "Nov", "Dec"]

/-- Controller lines 276-288: numeric search-by-date fallback. -/
def stageNumericDateSearch (message : String) : Option BotAction :=
  match matchNumericDateSearch (jsToLower message).toList with
  | none => none
  | some (d, mnum) =>
    if 1 ≤ mnum ∧ mnum ≤ 12 then
      some (.searchDate d (controllerMonthNames.getD (mnum - 1) ""))
    else none

/-- Controller lines 290-302: regex search-by-month fallback. -/
def stageRegexSearchMonth (message : String) : Option BotAction :=
  match matchSearchMonth (jsToLower message).toList with
  | none => none
  | some mon =>
    match normalizeMonthToShort (some mon) with
    | some nm => some (.listMonth nm (capitalizeFirst nm))
    | none => none

/-- Controller lines 304-316: what-are-the-birthdays-in fallback. -/
def stageWhatBirthdays (message : String) : Option BotAction :=
  match matchWhatBirthdays (jsToLower message).toList with
  | none => none
  | some mon =>
    match normalizeMonthToShort (some mon) with
    | some nm => some (.listMonth nm (capitalizeFirst nm))
    | none => none

/-- Controller lines 318-325: upcoming keyword fallback. -/
def stageUpcomingRegex (message : String) : Option BotAction :=
  if jsIncludes (jsToLower message) "upcoming birthdays"
      || jsIncludes (jsToLower message) "birthdays coming up"
      || jsIncludes (jsToLower message) "birthdays in next 30 days"
      || jsIncludes (jsToLower message) "who has birthday soon" then
    some .upcoming
  else none

/-- Controller lines 327-343: fuzzy name search on short, non-date,
non-command text; terminates only when a match was found. -/
def stageFuzzy (db : Db) (phone message : String) : Option BotAction :=
  if 0 < (jsTrim message).length ∧ (jsTrim message).length ≤ 50 then
    if looksLikeDate (jsTrim message) || looksLikeCommand (jsTrim message) then
      none
    else if (fuzzySearchBirthdayByName db phone (jsTrim message)).1 then
      some (.fuzzyReply (jsTrim message))
    else none
  else none

/-- First decided stage of the cascade. -/
def firstSomeOpt : List (Option BotAction) → Option BotAction
  | [] => none
  | o :: rest => o <|> firstSomeOpt rest

/-- `handleIncomingMessage` (controller part_000, lines 31-357) as the
ordered cascade of its stages in source order; the first stage that
replies decides the action, and the terminal fallback always replies. -/
def route (db : Db) (phone : String) (userKnown : Bool)
    (cm cmn message : String) (parsed : LLMJson) : BotAction :=
  (firstSomeOpt
    [stageOnboarding userKnown,
     stageMultiline db phone message,
     stageHelp message,
     stageLlmListAll parsed,
     stageLlmListMonth message cm cmn parsed,
     stageRegexListAll message,
     stageRegexThisMonth message cm cmn,
     stageLlmSave db phone message parsed,
     stageLlmDelete parsed,
     stageLlmUpdate db phone parsed,
     stageRegexDelete message,
     stageRegexUpdate db phone message,
     stageSaveFromMessage db phone message,
     stageLegacySave db phone message,
     stageSearchNameIntent parsed,
     stageSearchDateIntent parsed,
     stageSearchMonthIntent message parsed,
     stageUpcomingIntent parsed,
     stageRegexSearchName message,
     stageRegexSearchDate message,
     stageNumericDateSearch message,
     stageRegexSearchMonth message,
     stageWhatBirthdays message,
     stageUpcomingRegex message,
     stageFuzzy db phone message]).getD .fallback

/-- C2 counterexample to the claim as stated: for the message
"all birthdays" — one of the deterministic list keyword phrases — the
classifier's output does determine the action: a list_month
classification routes the turn to the current-month listing, while any
other output reaches the keyword regex and lists everything. -/
theorem c2_counterexample :
    route [] "15550001111" true "Oct" "October" "all birthdays"
        ⟨some "list_month", none, none, none⟩
      = BotAction.listMonth "Oct" "October"
    ∧ route [] "15550001111" true "Oct" "October" "all birthdays"
        ⟨some "unknown", none, none, none⟩
      = BotAction.listAll
    ∧ BotAction.listMonth "Oct" "October" ≠ BotAction.listAll :=
  ⟨by decide, by decide, by decide⟩

/-- C2 (amended) — the classifier is invoked and consumed before the
deterministic list/search keyword patterns are tested: for an onboarded
user, the messages "all birthdays" and "this month" are first routed by
the classifier's list_all/list_month intents, and only when the
classifier returned neither do the keyword regexes decide the action
deterministically; hence the classifier's output can determine the
action for a message matching one of these phrases. -/
theorem c2_amended_classifier_precedes_keywords (db : Db)
    (phone cm cmn : String) (parsed : LLMJson) :
    route db phone true cm cmn "all birthdays" parsed
      = (if parsed.intent == some "list_all" then BotAction.listAll
         else if parsed.intent == some "list_month" then
           BotAction.listMonth cm cmn
         else BotAction.listAll)
    ∧ route db phone true cm cmn "this month" parsed
      = (if parsed.intent == some "list_all" then BotAction.listAll
         else if parsed.intent == some "list_month" then
           BotAction.listMonth cm cmn
         else BotAction.listMonth cm cmn) := by
  have e1 : stageOnboarding true = none := rfl
  have e2a : stageMultiline db phone "all birthdays" = none := rfl
  have e2b : stageMultiline db phone "this month" = none := rfl
  have e3a : stageHelp "all birthdays" = none := rfl
  have e3b : stageHelp "this month" = none := rfl
  have e6a : stageRegexListAll "all birthdays" = some BotAction.listAll := rfl
  have e6b : stageRegexListAll "this month" = none := rfl
  have e7b : stageRegexThisMonth "this month" cm cmn
      = some (BotAction.listMonth cm cmn) := rfl
  constructor
  · by_cases h1 : parsed.intent == some "list_all"
    · have hs4 : stageLlmListAll parsed = some BotAction.listAll := by
        simp [stageLlmListAll, h1]
      simp [route, firstSomeOpt, e1, e2a, e3a, hs4, h1]
    · have hs4 : stageLlmListAll parsed = none := by
        simp [stageLlmListAll, h1]
      by_cases h2 : parsed.intent == some "list_month"
      · have hs5 : stageLlmListMonth "all birthdays" cm cmn parsed
            = some (BotAction.listMonth cm cmn) := by
          simp [stageLlmListMonth, h2]
          rfl
        simp [route, firstSomeOpt, e1, e2a, e3a, hs4, hs5, h1, h2]
      · have hs5 : stageLlmListMonth "all birthdays" cm cmn parsed = none := by
          simp [stageLlmListMonth, h2]
        simp [route, firstSomeOpt, e1, e2a, e3a, hs4, hs5, e6a, h1, h2]
  · by_cases h1 : parsed.intent == some "list_all"
    · have hs4 : stageLlmListAll parsed = some BotAction.listAll := by
        simp [stageLlmListAll, h1]
      simp [route, firstSomeOpt, e1, e2b, e3b, hs4, h1]
    · have hs4 : stageLlmListAll parsed = none := by
        simp [stageLlmListAll, h1]
      by_cases h2 : parsed.intent == some "list_month"
      · have hs5 : stageLlmListMonth "this month" cm cmn parsed
            = some (BotAction.listMonth cm cmn) := by
          simp [stageLlmListMonth, h2]
          rfl
        simp [route, firstSomeOpt, e1, e2b, e3b, hs4, hs5, h1, h2]
      · have hs5 : stageLlmListMonth "this month" cm cmn parsed = none := by
          simp [stageLlmListMonth, h2]
        simp [route, firstSomeOpt, e1, e2b, e3b, hs4, hs5, e6b, e7b, h1, h2]

/-- C2's amended routing at a concrete state, via the theorem. -/
theorem c2_witness :
    route [] "15550001111" true "Oct" "October" "all birthdays"
        ⟨some "delete", some "birthdays", none, none⟩
      = BotAction.listAll :=
  by
    have h := (c2_amended_classifier_precedes_keywords [] "15550001111"
      "Oct" "October" ⟨some "delete", some "birthdays", none, none⟩).1
    simpa using h

end BirthdayBot
